import Mathlib

/-!
# SPDK blobfs environment adapter (`env_spdk.cc`)

A shallow embedding of the path normaliser, the three blob file handles, the
filesystem facade and the start-up logic of
`app/rocksdb_5.14.3/env/env_spdk.cc`, together with the properties the
specification states about them.

Conventions of the embedding:

* a `std::string` is a list of characters (`Str`);
* a thrown C++ exception or a signed overflow is an explicit `Fault`
  (`Except Fault _`); the normaliser records every `operator[]` read with its
  position, so that a read outside the string shows (`Traced`);
* `uint64_t` fields are naturals reduced modulo `2 ^ 64` at every update;
* the blob filesystem and the fallback (`EnvWrapper`) filesystem are external:
  every call to them is appended to a log, and its reply is given by an
  arbitrary function of the log so far and the call (`External`);
* the per-thread channel (`set_channel`, `g_sync_args.channel`), the global
  filesystem pointer `g_fs` as an argument of the `spdk_fs_*` calls and the
  assignment to `errno` carry no data the properties of the file operations
  speak about and are not represented there;
* start-up is a state machine on the globals `g_fs`, `g_spdk_ready` and
  `g_spdk_start_failure`, driven by the events of the runtime thread and read
  by the constructing thread (`Globals`, `RuntimeEvent`, `NewSpdkEnv`).
-/

namespace SpdkEnvModel

/-- A `std::string`: the sequence of its characters. -/
abbrev Str := List Char

/-- The ways the normaliser and the string operations of the source can stop
without a result: `std::out_of_range` thrown by `substr` / `insert` / `erase`,
and overflow of a signed `int` (undefined behaviour). -/
inductive Fault where
  | out_of_range
  | int_overflow
  deriving DecidableEq, Repr

instance instDecidableEqExcept {ε α : Type} [DecidableEq ε] [DecidableEq α] :
    DecidableEq (Except ε α)
  | .ok a, .ok b => if h : a = b then isTrue (by rw [h]) else isFalse (fun e => h (by cases e; rfl))
  | .error a, .error b =>
    if h : a = b then isTrue (by rw [h]) else isFalse (fun e => h (by cases e; rfl))
  | .ok _, .error _ => isFalse (fun e => by cases e)
  | .error _, .ok _ => isFalse (fun e => by cases e)

/-- The width of `size_t` and `uint64_t`. -/
def U64 : Nat := 2 ^ 64

/-- `std::string::substr(pos, n)`: throws when `pos > size()`. -/
def substr (s : Str) (pos n : Nat) : Except Fault Str :=
  if pos ≤ s.length then .ok ((s.drop pos).take n) else .error .out_of_range

/-- `std::string::insert(pos, 1, c)`: throws when `pos > size()`. -/
def insert (s : Str) (pos : Nat) (c : Char) : Except Fault Str :=
  if pos ≤ s.length then .ok (s.take pos ++ c :: s.drop pos) else .error .out_of_range

/-- `std::string::erase(pos, n)`: throws when `pos > size()`. -/
def erase (s : Str) (pos n : Nat) : Except Fault Str :=
  if pos ≤ s.length then .ok (s.take pos ++ s.drop (pos + n)) else .error .out_of_range

/-- `std::string::operator[]`: positions below `size()` hold the characters and
position `size()` holds the terminating NUL. A read beyond `size()` is outside
the string (undefined behaviour); the caller records every read with its
position, and the value of such a read is taken to be NUL, which is what makes
`sanitize_path("/mnt", "/mnt")` return the empty string when the program
runs. -/
def charAt (s : Str) (pos : Nat) : Char := s.getD pos (Char.ofNat 0)

/-- `s.size() - 1` computed in `size_t`: a string is shorter than `2 ^ 64`, so
the difference wraps (to `2 ^ 64 - 1`) exactly for the empty string. -/
def size_minus_one (s : Str) : Nat := if s.length = 0 then U64 - 1 else s.length - 1

/-- The largest value of an `int`. -/
def INT_MAX : Nat := 2 ^ 31 - 1

/-- `index++` on the `int index` of `sanitize_path`: incrementing `INT_MAX`
overflows. -/
def incr (index : Nat) : Except Fault Nat :=
  if index < INT_MAX then .ok (index + 1) else .error .int_overflow

/-- The state of `sanitize_path`: the `int index` (never negative), the string
`name`, and the `operator[]` reads made so far, each as the position read and
the size of `name` at that time. -/
structure Scan where
  index : Nat
  name : Str
  reads : List (Nat × Nat)
  deriving DecidableEq, Repr

/-- The body of the `for (const char &c : input_tmp)` loop of `sanitize_path`
(lines 151-165). -/
def sanitize_step (st : Scan) (c : Char) : Except Fault Scan :=
  if st.index = 0 then
    if c ≠ '/' then
      (insert st.name st.index '/').bind fun name =>
        (incr st.index).bind fun index =>
          (insert name index c).bind fun name2 =>
            (incr index).bind fun index2 =>
              .ok { index := index2, name := name2, reads := st.reads }
    else
      (insert st.name st.index c).bind fun name =>
        (incr st.index).bind fun index =>
          .ok { index := index, name := name, reads := st.reads }
  else
    if charAt st.name (st.index - 1) = '/' ∧ c = '/' then
      .ok { st with reads := st.reads ++ [(st.index - 1, st.name.length)] }
    else
      (insert st.name st.index c).bind fun name =>
        (incr st.index).bind fun index =>
          .ok { index := index, name := name,
                reads := st.reads ++ [(st.index - 1, st.name.length)] }

/-- The loop of `sanitize_path` over the characters of `input_tmp`. -/
def sanitize_loop : Scan → Str → Except Fault Scan
  | st, [] => .ok st
  | st, c :: cs => (sanitize_step st c).bind fun st2 => sanitize_loop st2 cs

/-- What a call of `sanitize_path` leaves: the string it returns and the
`operator[]` reads it made. -/
structure Traced where
  name : Str
  reads : List (Nat × Nat)
  deriving DecidableEq, Repr

/-- `sanitize_path(input, mount_directory)` (env_spdk.cc, lines 142-172) with
its reads. `name[name.size() - 1]` is read whether or not `name` is empty. -/
def sanitize_path_traced (input mount_directory : Str) : Except Fault Traced :=
  (substr input mount_directory.length input.length).bind fun input_tmp =>
    (sanitize_loop { index := 0, name := [], reads := [] } input_tmp).bind fun st =>
      if charAt st.name (size_minus_one st.name) = '/' then
        (erase st.name (size_minus_one st.name) 1).bind fun name =>
          .ok { name := name,
                reads := st.reads ++ [(size_minus_one st.name, st.name.length)] }
      else
        .ok { name := st.name,
              reads := st.reads ++ [(size_minus_one st.name, st.name.length)] }

/-- `sanitize_path(input, mount_directory)`: the string returned. -/
def sanitize_path (input mount_directory : Str) : Except Fault Str :=
  (sanitize_path_traced input mount_directory).map fun t => t.name

/-! ## The external collaborators -/

/-- Modelled from the spec: the storage engine's status vocabulary
(`rocksdb::Status`, declared in `rocksdb/status.h`, which is not part of this
file). `OK`, `IOError(name, message)` and `NotSupported(message)` are the
values the adapter builds itself; the fallback filesystem may return any
status. -/
inductive Status where
  | OK
  | NotFound (msg msg2 : Str)
  | Corruption (msg msg2 : Str)
  | NotSupported (msg msg2 : Str)
  | InvalidArgument (msg msg2 : Str)
  | IOError (msg msg2 : Str)
  deriving DecidableEq, Repr

/-- Modelled from the spec: `rocksdb::Slice` (declared in `rocksdb/slice.h`), a
view given by a data pointer and a length. -/
structure Slice where
  data : Nat
  size : Nat
  deriving DecidableEq, Repr

/-- `int` narrowing of a wider signed value, as in `errno = -ret` where `ret`
is an `int64_t`. -/
def toInt32 (v : Int) : Int := (v + 2 ^ 31) % 2 ^ 32 - 2 ^ 31

/-- `ENOENT` of `<errno.h>` (Linux). -/
def ENOENT : Int := 2

/-- `SPDK_BLOBFS_OPEN_CREATE` of `spdk/blobfs.h`. -/
def SPDK_BLOBFS_OPEN_CREATE : Nat := 1

/-- `SPDK_FILE_PRIORITY_HIGH` of `spdk/blobfs.h`. -/
def SPDK_FILE_PRIORITY_HIGH : Nat := 1

/-- Every call the adapter makes to the blob filesystem (`spdk_*`) or to the
fallback filesystem (`EnvWrapper::*`, here `base_*`), with the arguments it
passes. Pointers (`struct spdk_file *`, scratch buffers, handles returned by the
fallback) are naturals, `0` being `NULL`. -/
inductive Call where
  | spdk_fs_open_file (name : Str) (flags : Nat)
  | spdk_fs_file_stat (name : Str)
  | spdk_fs_rename_file (old_name new_name : Str)
  | spdk_fs_delete_file (name : Str)
  | spdk_fs_iter
  | spdk_file_get_name (file : Nat)
  | spdk_file_read (file : Nat) (payload : Nat) (offset length : Nat)
  | spdk_file_write (file : Nat) (payload : Nat) (offset length : Nat)
  | spdk_file_truncate (file : Nat) (length : Nat)
  | spdk_file_sync (file : Nat)
  | spdk_file_close (file : Nat)
  | spdk_file_set_priority (file : Nat) (priority : Nat)
  | spdk_file_get_id (file : Nat) (id : Nat) (max_size : Nat)
  | spdk_file_set_retain_cache (file : Nat) (retain : Bool)
  | spdk_file_set_prefetch_size (file : Nat) (size : Int)
  | spdk_file_set_prefetch_threshold (file : Nat) (threshold : Int)
  | spdk_file_set_direct_io (file : Nat) (mode : Nat)
  | base_NewSequentialFile (fname : Str) (options : Nat)
  | base_NewRandomAccessFile (fname : Str) (options : Nat)
  | base_NewWritableFile (fname : Str) (options : Nat)
  | base_ReuseWritableFile (fname old_fname : Str) (options : Nat)
  | base_FileExists (fname : Str)
  | base_RenameFile (src target : Str)
  | base_GetFileSize (fname : Str)
  | base_DeleteFile (fname : Str)
  | base_GetChildren (dir : Str)
  deriving DecidableEq, Repr

/-- What an external call hands back. Each call reads the fields it defines:
`rc` the integer result code, `file` the file pointer written by an open,
`size` the `size` field of the stat record (or the size written by the
fallback), `name` the name returned by `spdk_file_get_name`, `files` the file
pointers yielded by iterating the blob filesystem from `spdk_fs_iter_first`
until `NULL`, `status` the status returned by the fallback, `handle` the handle
object the fallback stores in `*result`, `children` the child list the fallback
leaves in `*result`. -/
structure Reply where
  rc : Int
  file : Nat
  size : Nat
  name : Str
  files : List Nat
  status : Status
  handle : Nat
  children : List Str

/-- The calls issued so far, oldest first. -/
abbrev Log := List Call

/-- The world outside the adapter: `reply log c` is the answer to call `c` when
the calls in `log` came before it, and `strerror` is the C library's error
string table. -/
structure External where
  reply : Log → Call → Reply
  strerror : Int → Str

/-- The `Status::IOError(name, strerror(errno))` built after `errno = -rc`. -/
def ioError (x : External) (name : Str) (rc : Int) : Status :=
  Status.IOError name (x.strerror (toInt32 (-rc)))

/-- Outcome of an operation that only reports a status and leaves a new
state `σ` behind. -/
structure Outcome (σ : Type) where
  status : Status
  self : σ
  log : Log

/-! ## Sequential handle -/

/-- `class SpdkSequentialFile` (lines 174-185). -/
structure SpdkSequentialFile where
  mFile : Nat
  mOffset : Nat
  deriving DecidableEq, Repr

/-- The constructor `SpdkSequentialFile(file)`: `mOffset(0)`. -/
def SpdkSequentialFile.new (file : Nat) : SpdkSequentialFile := ⟨file, 0⟩

/-- Outcome of a read: the status, the slice stored in `*result` (`none` when
`*result` is left untouched), the handle afterwards and the log afterwards. -/
structure ReadOutcome (σ : Type) where
  status : Status
  result : Option Slice
  self : σ
  log : Log

/-- `SpdkSequentialFile::Read(n, result, scratch)` (lines 193-208). -/
def SpdkSequentialFile.Read (x : External) (log : Log) (h : SpdkSequentialFile)
    (n scratch : Nat) : ReadOutcome SpdkSequentialFile :=
  let c := Call.spdk_file_read h.mFile scratch h.mOffset n
  let ret := (x.reply log c).rc
  if ret ≥ 0 then
    { status := .OK
      result := some ⟨scratch, ret.toNat⟩
      self := { h with mOffset := (h.mOffset + ret.toNat) % U64 }
      log := log ++ [c] }
  else
    let g := Call.spdk_file_get_name h.mFile
    { status := ioError x (x.reply (log ++ [c]) g).name ret
      result := none
      self := h
      log := log ++ [c, g] }

/-- `SpdkSequentialFile::Skip(n)` (lines 210-215). -/
def SpdkSequentialFile.Skip (log : Log) (h : SpdkSequentialFile) (n : Nat) :
    ReadOutcome SpdkSequentialFile :=
  { status := .OK, result := none, self := { h with mOffset := (h.mOffset + n) % U64 },
    log := log }

/-- `SpdkSequentialFile::InvalidateCache(offset, length)` (lines 217-222). -/
def SpdkSequentialFile.InvalidateCache (log : Log) (h : SpdkSequentialFile)
    (_offset _length : Nat) : Outcome SpdkSequentialFile :=
  { status := .OK, self := h, log := log }

/-- The destructor `~SpdkSequentialFile` (lines 187-191): closes the file. -/
def SpdkSequentialFile.destroy (log : Log) (h : SpdkSequentialFile) : Log :=
  log ++ [Call.spdk_file_close h.mFile]

/-! ## Random-access handle -/

/-- `class SpdkRandomAccessFile` (lines 224-233). -/
structure SpdkRandomAccessFile where
  mFile : Nat
  deriving DecidableEq, Repr

/-- `SpdkRandomAccessFile::Read(offset, n, result, scratch)` (lines 241-255). -/
def SpdkRandomAccessFile.Read (x : External) (log : Log) (h : SpdkRandomAccessFile)
    (offset n scratch : Nat) : ReadOutcome SpdkRandomAccessFile :=
  let c := Call.spdk_file_read h.mFile scratch offset n
  let rc := (x.reply log c).rc
  if rc ≥ 0 then
    { status := .OK, result := some ⟨scratch, n⟩, self := h, log := log ++ [c] }
  else
    let g := Call.spdk_file_get_name h.mFile
    { status := ioError x (x.reply (log ++ [c]) g).name rc
      result := none
      self := h
      log := log ++ [c, g] }

/-- `SpdkRandomAccessFile::InvalidateCache(offset, length)` (lines 257-262). -/
def SpdkRandomAccessFile.InvalidateCache (log : Log) (h : SpdkRandomAccessFile)
    (_offset _length : Nat) : Outcome SpdkRandomAccessFile :=
  { status := .OK, self := h, log := log }

/-- The destructor `~SpdkRandomAccessFile` (lines 235-239). -/
def SpdkRandomAccessFile.destroy (log : Log) (h : SpdkRandomAccessFile) : Log :=
  log ++ [Call.spdk_file_close h.mFile]

/-! ## Writable handle -/

/-- `class SpdkWritableFile` (lines 264-270): the file pointer (`0` once closed)
and the tracked size. -/
structure SpdkWritableFile where
  mFile : Nat
  mSize : Nat
  deriving DecidableEq, Repr

/-- The constructor `SpdkWritableFile(file)`: `mSize(0)`. -/
def SpdkWritableFile.new (file : Nat) : SpdkWritableFile := ⟨file, 0⟩

/-- Modelled from the spec: `Env::IOPriority` (declared in `rocksdb/env.h`). -/
inductive IOPriority where
  | IO_LOW
  | IO_HIGH
  | IO_TOTAL
  deriving DecidableEq, Repr

/-- The tail shared by `Truncate`, `Sync`, `Fsync`, `Allocate` and `RangeSync`:
`if (!rc) return OK; else { errno = -rc; return IOError(name, strerror) }`,
the handle being `ok` on success and unchanged on failure. -/
def SpdkWritableFile.finish (x : External) (log : Log) (h ok : SpdkWritableFile)
    (c : Call) : Outcome SpdkWritableFile :=
  let rc := (x.reply log c).rc
  if rc = 0 then
    { status := .OK, self := ok, log := log ++ [c] }
  else
    let g := Call.spdk_file_get_name h.mFile
    { status := ioError x (x.reply (log ++ [c]) g).name rc, self := h, log := log ++ [c, g] }

/-- `SpdkWritableFile::SetIOPriority(pri)` (lines 278-283). -/
def SpdkWritableFile.SetIOPriority (log : Log) (h : SpdkWritableFile) (pri : IOPriority) :
    SpdkWritableFile × Log :=
  if pri = .IO_HIGH then
    (h, log ++ [Call.spdk_file_set_priority h.mFile SPDK_FILE_PRIORITY_HIGH])
  else (h, log)

/-- `SpdkWritableFile::Truncate(size)` (lines 285-298). -/
def SpdkWritableFile.Truncate (x : External) (log : Log) (h : SpdkWritableFile)
    (size : Nat) : Outcome SpdkWritableFile :=
  SpdkWritableFile.finish x log h { h with mSize := size }
    (Call.spdk_file_truncate h.mFile size)

/-- `SpdkWritableFile::Close()` (lines 299-305). -/
def SpdkWritableFile.Close (log : Log) (h : SpdkWritableFile) : Outcome SpdkWritableFile :=
  { status := .OK, self := { h with mFile := 0 }, log := log ++ [Call.spdk_file_close h.mFile] }

/-- `SpdkWritableFile::Append(data)` (lines 394-408). -/
def SpdkWritableFile.Append (x : External) (log : Log) (h : SpdkWritableFile)
    (data : Slice) : Outcome SpdkWritableFile :=
  let c := Call.spdk_file_write h.mFile data.data h.mSize data.size
  let rc := (x.reply log c).rc
  if rc ≥ 0 then
    { status := .OK, self := { h with mSize := (h.mSize + data.size) % U64 }, log := log ++ [c] }
  else
    let g := Call.spdk_file_get_name h.mFile
    { status := ioError x (x.reply (log ++ [c]) g).name rc, self := h, log := log ++ [c, g] }

/-- `SpdkWritableFile::Flush()` (lines 307-310). -/
def SpdkWritableFile.Flush (log : Log) (h : SpdkWritableFile) : Outcome SpdkWritableFile :=
  { status := .OK, self := h, log := log }

/-- `SpdkWritableFile::Sync()` (lines 311-323). -/
def SpdkWritableFile.Sync (x : External) (log : Log) (h : SpdkWritableFile) :
    Outcome SpdkWritableFile :=
  SpdkWritableFile.finish x log h h (Call.spdk_file_sync h.mFile)

/-- `SpdkWritableFile::Fsync()` (lines 324-336). -/
def SpdkWritableFile.Fsync (x : External) (log : Log) (h : SpdkWritableFile) :
    Outcome SpdkWritableFile :=
  SpdkWritableFile.finish x log h h (Call.spdk_file_sync h.mFile)

/-- `SpdkWritableFile::IsSyncThreadSafe()` (lines 337-340). -/
def SpdkWritableFile.IsSyncThreadSafe (_h : SpdkWritableFile) : Bool := true

/-- `SpdkWritableFile::GetFileSize()` (lines 341-344). -/
def SpdkWritableFile.GetFileSize (h : SpdkWritableFile) : Nat := h.mSize

/-- `SpdkWritableFile::InvalidateCache(offset, length)` (lines 345-349). -/
def SpdkWritableFile.InvalidateCache (log : Log) (h : SpdkWritableFile)
    (_offset _length : Nat) : Outcome SpdkWritableFile :=
  { status := .OK, self := h, log := log }

/-- `SpdkWritableFile::Allocate(offset, len)` (lines 350-362): a truncate to
`offset + len` (a `uint64_t` sum) that does not touch `mSize`. -/
def SpdkWritableFile.Allocate (x : External) (log : Log) (h : SpdkWritableFile)
    (offset len : Nat) : Outcome SpdkWritableFile :=
  SpdkWritableFile.finish x log h h (Call.spdk_file_truncate h.mFile ((offset + len) % U64))

/-- `SpdkWritableFile::RangeSync(offset, nbytes)` (lines 363-380): a sync of the
whole file. -/
def SpdkWritableFile.RangeSync (x : External) (log : Log) (h : SpdkWritableFile)
    (_offset _nbytes : Nat) : Outcome SpdkWritableFile :=
  SpdkWritableFile.finish x log h h (Call.spdk_file_sync h.mFile)

/-- `SpdkWritableFile::GetUniqueId(id, max_size)` (lines 381-391): the length of
the identifier, `0` when the runtime has none. -/
def SpdkWritableFile.GetUniqueId (x : External) (log : Log) (h : SpdkWritableFile)
    (id max_size : Nat) : Nat × Log :=
  let c := Call.spdk_file_get_id h.mFile id max_size
  let rc := (x.reply log c).rc
  (if rc < 0 then 0 else rc.toNat, log ++ [c])

/-- The destructor `~SpdkWritableFile` (lines 271-276). -/
def SpdkWritableFile.destroy (log : Log) (h : SpdkWritableFile) : SpdkWritableFile × Log :=
  if h.mFile ≠ 0 then ((SpdkWritableFile.Close log h).self, (SpdkWritableFile.Close log h).log)
  else (h, log)

/-- The operations of the writable handle, with their arguments. -/
inductive WritableOp where
  | SetIOPriority (pri : IOPriority)
  | Truncate (size : Nat)
  | Close
  | Append (data : Slice)
  | Flush
  | Sync
  | Fsync
  | IsSyncThreadSafe
  | GetFileSize
  | InvalidateCache (offset length : Nat)
  | Allocate (offset len : Nat)
  | RangeSync (offset nbytes : Nat)
  | GetUniqueId (id max_size : Nat)
  deriving DecidableEq, Repr

/-- The handle and the log after an operation of the writable handle. -/
def SpdkWritableFile.after (x : External) (log : Log) (h : SpdkWritableFile) :
    WritableOp → SpdkWritableFile × Log
  | .SetIOPriority pri => SpdkWritableFile.SetIOPriority log h pri
  | .Truncate size => ((h.Truncate x log size).self, (h.Truncate x log size).log)
  | .Close => ((h.Close log).self, (h.Close log).log)
  | .Append data => ((h.Append x log data).self, (h.Append x log data).log)
  | .Flush => ((h.Flush log).self, (h.Flush log).log)
  | .Sync => ((h.Sync x log).self, (h.Sync x log).log)
  | .Fsync => ((h.Fsync x log).self, (h.Fsync x log).log)
  | .IsSyncThreadSafe => (h, log)
  | .GetFileSize => (h, log)
  | .InvalidateCache o l => ((h.InvalidateCache log o l).self, (h.InvalidateCache log o l).log)
  | .Allocate o l => ((h.Allocate x log o l).self, (h.Allocate x log o l).log)
  | .RangeSync o n => ((h.RangeSync x log o n).self, (h.RangeSync x log o n).log)
  | .GetUniqueId id m => (h, (h.GetUniqueId x log id m).2)

/-! ## String helpers of the facade -/

/-- `s.find(pat, pos)`: the first position at or after `pos` where `pat` occurs
in `s`; `none` stands for `std::string::npos`. -/
def find (s pat : Str) (pos : Nat) : Option Nat :=
  (List.range' pos (s.length + 1 - pos)).find? fun i => pat.isPrefixOf (s.drop i)

/-- `strncmp(a.c_str(), b.c_str(), n)`: compares at most `n` characters as
unsigned values and stops at the first NUL (the end of a string reads as NUL).
The result is `-1`, `0` or `1`. -/
def strncmp : Str → Str → Nat → Int
  | _, _, 0 => 0
  | a, b, n + 1 =>
    if (a.headD (Char.ofNat 0)).toNat < (b.headD (Char.ofNat 0)).toNat then -1
    else if (b.headD (Char.ofNat 0)).toNat < (a.headD (Char.ofNat 0)).toNat then 1
    else if a.headD (Char.ofNat 0) = Char.ofNat 0 then 0
    else strncmp a.tail b.tail n

/-- `operator<` on `std::string`: lexicographic on character values. -/
def str_lt : Str → Str → Bool
  | [], [] => false
  | [], _ :: _ => true
  | _ :: _, [] => false
  | a :: as, b :: bs =>
    if a.toNat < b.toNat then true
    else if b.toNat < a.toNat then false
    else str_lt as bs

/-- `std::set<std::string>::insert` on the set kept as its ascending list of
distinct elements. -/
def set_insert (v : Str) : List Str → List Str
  | [] => [v]
  | w :: ws =>
    if str_lt v w then v :: w :: ws
    else if str_lt w v then w :: set_insert v ws
    else w :: ws

/-! ## Filesystem facade -/

/-- The fields of `class SpdkEnv` (lines 433-444) the file operations read. -/
structure SpdkEnv where
  mDirectory : Str
  mRetainCache : Bool
  mPrefetchSize : Int
  mPrefetchThreshold : Int
  mBlobfsDirectIO : Nat

/-- The scope test `fname.compare(0, mDirectory.length(), mDirectory) == 0`:
the first `mDirectory.length()` characters of `fname` (fewer when `fname` is
shorter) are compared with `mDirectory`. -/
def SpdkEnv.in_scope (env : SpdkEnv) (fname : Str) : Bool :=
  decide (fname.take env.mDirectory.length = env.mDirectory)

/-- What an open leaves in `*result`. -/
inductive FileResult (σ : Type) where
  | untouched
  | spdk (h : σ)
  | base (handle : Nat)

/-- Outcome of an open. -/
structure OpenOutcome (σ : Type) where
  status : Status
  result : FileResult σ
  log : Log

/-- The four `spdk_file_set_*` calls made on a freshly opened file. -/
def SpdkEnv.file_settings (env : SpdkEnv) (file : Nat) : List Call :=
  [Call.spdk_file_set_retain_cache file env.mRetainCache,
   Call.spdk_file_set_prefetch_size file env.mPrefetchSize,
   Call.spdk_file_set_prefetch_threshold file env.mPrefetchThreshold,
   Call.spdk_file_set_direct_io file env.mBlobfsDirectIO]

/-- The in-scope branch shared by the three opens: normalise, open with
`flags`, and on `rc == 0` configure the file and wrap it with `wrap`. -/
def SpdkEnv.open_in_scope {σ : Type} (env : SpdkEnv) (x : External) (log : Log)
    (fname : Str) (flags : Nat) (wrap : Nat → σ) : Except Fault (OpenOutcome σ) :=
  (sanitize_path fname env.mDirectory).bind fun name =>
    let c := Call.spdk_fs_open_file name flags
    let r := x.reply log c
    if r.rc = 0 then
      .ok { status := .OK, result := .spdk (wrap r.file),
            log := log ++ c :: env.file_settings r.file }
    else
      .ok { status := ioError x name r.rc, result := .untouched, log := log ++ [c] }

/-- The out-of-scope branch of an open: the call `c` to the fallback. -/
def SpdkEnv.delegate_open {σ : Type} (x : External) (log : Log) (c : Call) :
    Except Fault (OpenOutcome σ) :=
  .ok { status := (x.reply log c).status, result := .base (x.reply log c).handle,
        log := log ++ [c] }

/-- `SpdkEnv::NewSequentialFile(fname, result, options)` (lines 454-484). -/
def SpdkEnv.NewSequentialFile (env : SpdkEnv) (x : External) (log : Log) (fname : Str)
    (options : Nat) : Except Fault (OpenOutcome SpdkSequentialFile) :=
  if env.in_scope fname then env.open_in_scope x log fname 0 SpdkSequentialFile.new
  else SpdkEnv.delegate_open x log (Call.base_NewSequentialFile fname options)

/-- `SpdkEnv::NewRandomAccessFile(fname, result, options)` (lines 486-512). -/
def SpdkEnv.NewRandomAccessFile (env : SpdkEnv) (x : External) (log : Log) (fname : Str)
    (options : Nat) : Except Fault (OpenOutcome SpdkRandomAccessFile) :=
  if env.in_scope fname then env.open_in_scope x log fname 0 SpdkRandomAccessFile.mk
  else SpdkEnv.delegate_open x log (Call.base_NewRandomAccessFile fname options)

/-- `SpdkEnv::NewWritableFile(fname, result, options)` (lines 514-540). -/
def SpdkEnv.NewWritableFile (env : SpdkEnv) (x : External) (log : Log) (fname : Str)
    (options : Nat) : Except Fault (OpenOutcome SpdkWritableFile) :=
  if env.in_scope fname then
    env.open_in_scope x log fname SPDK_BLOBFS_OPEN_CREATE SpdkWritableFile.new
  else SpdkEnv.delegate_open x log (Call.base_NewWritableFile fname options)

/-- `SpdkEnv::ReuseWritableFile` (lines 542-548): always the fallback. -/
def SpdkEnv.ReuseWritableFile (_env : SpdkEnv) (x : External) (log : Log)
    (fname old_fname : Str) (options : Nat) : Except Fault (OpenOutcome SpdkWritableFile) :=
  SpdkEnv.delegate_open x log (Call.base_ReuseWritableFile fname old_fname options)

/-- `class SpdkDirectory` (lines 410-419): no state. -/
structure SpdkDirectory where
  deriving DecidableEq, Repr

/-- `SpdkDirectory::Fsync()`. -/
def SpdkDirectory.Fsync (_d : SpdkDirectory) : Status := .OK

/-- `SpdkEnv::NewDirectory(name, result)` (lines 550-555). -/
def SpdkEnv.NewDirectory (_env : SpdkEnv) (_name : Str) : Status × SpdkDirectory :=
  (.OK, {})

/-- Outcome of a facade operation that reports a status only. -/
structure PathOutcome where
  status : Status
  log : Log

/-- `SpdkEnv::FileExists(fname)` (lines 556-568). -/
def SpdkEnv.FileExists (env : SpdkEnv) (x : External) (log : Log) (fname : Str) :
    Except Fault PathOutcome :=
  (sanitize_path fname env.mDirectory).bind fun name =>
    let c := Call.spdk_fs_file_stat name
    if (x.reply log c).rc = 0 then .ok { status := .OK, log := log ++ [c] }
    else
      let b := Call.base_FileExists fname
      .ok { status := (x.reply (log ++ [c]) b).status, log := log ++ [c, b] }

/-- `SpdkEnv::RenameFile(src, t)` (lines 569-582). -/
def SpdkEnv.RenameFile (env : SpdkEnv) (x : External) (log : Log) (src t : Str) :
    Except Fault PathOutcome :=
  (sanitize_path src env.mDirectory).bind fun src_name =>
    (sanitize_path t env.mDirectory).bind fun target_name =>
      let c := Call.spdk_fs_rename_file src_name target_name
      if (x.reply log c).rc = -ENOENT then
        let b := Call.base_RenameFile src t
        .ok { status := (x.reply (log ++ [c]) b).status, log := log ++ [c, b] }
      else .ok { status := .OK, log := log ++ [c] }

/-- `SpdkEnv::LinkFile(src, t)` (lines 583-587). -/
def SpdkEnv.LinkFile (_env : SpdkEnv) (_src _t : Str) : Status :=
  .NotSupported "SpdkEnv does not support LinkFile".toList []

/-- Outcome of `GetFileSize`: the status and the value left in `*size`. -/
structure SizeOutcome where
  status : Status
  size : Nat
  log : Log

/-- `SpdkEnv::GetFileSize(fname, size)` (lines 588-601). -/
def SpdkEnv.GetFileSize (env : SpdkEnv) (x : External) (log : Log) (fname : Str) :
    Except Fault SizeOutcome :=
  (sanitize_path fname env.mDirectory).bind fun name =>
    let c := Call.spdk_fs_file_stat name
    if (x.reply log c).rc = -ENOENT then
      let b := Call.base_GetFileSize fname
      .ok { status := (x.reply (log ++ [c]) b).status, size := (x.reply (log ++ [c]) b).size,
            log := log ++ [c, b] }
    else .ok { status := .OK, size := (x.reply log c).size, log := log ++ [c] }

/-- `SpdkEnv::DeleteFile(fname)` (lines 602-613). -/
def SpdkEnv.DeleteFile (env : SpdkEnv) (x : External) (log : Log) (fname : Str) :
    Except Fault PathOutcome :=
  (sanitize_path fname env.mDirectory).bind fun name =>
    let c := Call.spdk_fs_delete_file name
    if (x.reply log c).rc = -ENOENT then
      let b := Call.base_DeleteFile fname
      .ok { status := (x.reply (log ++ [c]) b).status, log := log ++ [c, b] }
    else .ok { status := .OK, log := log ++ [c] }

/-- Outcome of `LockFile`: the status and the lock token stored in `*lock`
(`none` when the open failed and nothing usable was stored). -/
structure LockOutcome where
  status : Status
  lock : Option Nat
  log : Log

/-- `SpdkEnv::LockFile(fname, lock)` (lines 614-630). -/
def SpdkEnv.LockFile (env : SpdkEnv) (x : External) (log : Log) (fname : Str) :
    Except Fault LockOutcome :=
  (sanitize_path fname env.mDirectory).bind fun name =>
    let c := Call.spdk_fs_open_file name SPDK_BLOBFS_OPEN_CREATE
    let r := x.reply log c
    if r.rc = 0 then
      .ok { status := .OK, lock := some r.file,
            log := log ++ [c, Call.spdk_file_set_retain_cache r.file env.mRetainCache,
                           Call.spdk_file_set_direct_io r.file env.mBlobfsDirectIO] }
    else .ok { status := ioError x name r.rc, lock := none, log := log ++ [c] }

/-- `SpdkEnv::UnlockFile(lock)` (lines 631-636). -/
def SpdkEnv.UnlockFile (_env : SpdkEnv) (log : Log) (lock : Nat) : PathOutcome :=
  { status := .OK, log := log ++ [Call.spdk_file_close lock] }

/-- One pass of the `while (iter != NULL)` loop of `GetChildren` (lines
656-670) on the file named `full_path`: files that do not start with `dir_name`
are skipped, otherwise the segment after `dir_name` and one more character, up
to the next `/`, is inserted into the set. `pos - dir_name.length() - 1` cannot
wrap because the search starts at `dir_name.length() + 1`. -/
def children_step (dir_name full_path : Str) (set : List Str) : Except Fault (List Str) :=
  if strncmp dir_name full_path dir_name.length ≠ 0 then .ok set
  else
    (match find full_path ['/'] (dir_name.length + 1) with
      | some pos => substr full_path (dir_name.length + 1) (pos - dir_name.length - 1)
      | none => substr full_path (dir_name.length + 1) (U64 - 1)).bind fun filename =>
      .ok (set_insert filename set)

/-- The iteration of `GetChildren` over the files of the blob filesystem, each
asked for its name. -/
def children_loop (x : External) (dir_name : Str) :
    Log → List Str → List Nat → Except Fault (List Str × Log)
  | log, set, [] => .ok (set, log)
  | log, set, file :: files =>
    (children_step dir_name (x.reply log (Call.spdk_file_get_name file)).name set).bind
      fun set2 => children_loop x dir_name (log ++ [Call.spdk_file_get_name file]) set2 files

/-- Outcome of `GetChildren`: the status and the contents of `*result`. -/
structure ChildrenOutcome where
  status : Status
  result : List Str
  log : Log

/-- `SpdkEnv::GetChildren(dir, result)` (lines 637-683); `result` is the
vector's content on entry. -/
def SpdkEnv.GetChildren (env : SpdkEnv) (x : External) (log : Log) (dir : Str)
    (result : List Str) : Except Fault ChildrenOutcome :=
  if (find dir "archive".toList 0).isSome then
    .ok { status := .OK, result := result, log := log }
  else if env.in_scope dir then
    (sanitize_path dir env.mDirectory).bind fun dir_name =>
      (children_loop x dir_name (log ++ [Call.spdk_fs_iter]) []
          (x.reply log Call.spdk_fs_iter).files).bind fun sl =>
        .ok { status := .OK, result := result ++ sl.1 ++ [".".toList, "..".toList],
              log := sl.2 }
  else
    let b := Call.base_GetChildren dir
    .ok { status := (x.reply log b).status, result := (x.reply log b).children,
          log := log ++ [b] }

/-! ## Path normaliser: what the loop computes -/

/-- The characters the scan appends for the input `cs` when `last` is the last
character emitted so far (`none` at the start of the scan). -/
def emitted : Option Char → Str → Str
  | _, [] => []
  | none, c :: cs =>
    if c = '/' then c :: emitted (some c) cs else '/' :: c :: emitted (some c) cs
  | some p, c :: cs =>
    if p = '/' ∧ c = '/' then emitted (some p) cs else c :: emitted (some c) cs

/-- The trailing-separator step: drop a final `/`. -/
def trim (name : Str) : Str :=
  if name.getLast? = some '/' then name.dropLast else name

/-- A canonical path: rooted at `/`, without `//`, not ending in `/`. -/
def Canonical (p : Str) : Prop :=
  p.head? = some '/' ∧ ¬ (['/', '/'] <:+: p) ∧ p.getLast? ≠ some '/'

/-! ## Vocabulary of the properties -/

/-- The error translation rule for a result code `rc` under the success test
`success`: the status is `OK` exactly on success, and otherwise it is
`IOError(name, strerror(errno))` with `errno = (int)(-rc)`. -/
def Translates (x : External) (status : Status) (name : Str) (rc : Int)
    (success : Prop) : Prop :=
  (status = .OK ↔ success) ∧
    (¬ success → status = .IOError name (x.strerror (toInt32 (-rc))))

/-- The sum of the lengths of a list of slices. -/
def totalSize (ds : List Slice) : Nat := (ds.map Slice.size).sum

/-- A sequence of `Append` calls on a writable handle, one per slice: the
handle and the log at the end. -/
def SpdkWritableFile.appendAll (x : External) :
    Log → SpdkWritableFile → List Slice → SpdkWritableFile × Log
  | log, h, [] => (h, log)
  | log, h, d :: ds => appendAll x (h.Append x log d).log (h.Append x log d).self ds

/-- Every write of a sequence of `Append` calls returns a non-negative code. -/
def SpdkWritableFile.writesSucceed (x : External) :
    Log → SpdkWritableFile → List Slice → Prop
  | _, _, [] => True
  | log, h, d :: ds =>
    0 ≤ (x.reply log (Call.spdk_file_write h.mFile d.data h.mSize d.size)).rc ∧
      writesSucceed x (h.Append x log d).log (h.Append x log d).self ds

/-- The operations on a sequential handle that move its cursor. -/
inductive SeqOp where
  | Read (n scratch : Nat)
  | Skip (n : Nat)
  deriving DecidableEq, Repr

/-- One `Read` or `Skip` on a sequential handle. -/
def SpdkSequentialFile.step (x : External) (log : Log) (h : SpdkSequentialFile) :
    SeqOp → ReadOutcome SpdkSequentialFile
  | .Read n scratch => h.Read x log n scratch
  | .Skip n => h.Skip log n

/-- What one call contributes to the cursor according to the specification:
the skipped amount, or the number of bytes a read returned (nothing when the
read failed and returned no slice). -/
def SeqOp.advance : SeqOp → ReadOutcome SpdkSequentialFile → Nat
  | .Skip n, _ => n
  | .Read _ _, o => match o.result with
    | some sl => sl.size
    | none => 0

/-- The bytes returned by the successful reads plus the skipped amounts, over a
sequence of calls. -/
def SpdkSequentialFile.total (x : External) :
    Log → SpdkSequentialFile → List SeqOp → Nat
  | _, _, [] => 0
  | log, h, op :: ops =>
    op.advance (h.step x log op) + total x (h.step x log op).log (h.step x log op).self ops

/-- The cursor after a sequence of calls. -/
def SpdkSequentialFile.cursorAfter (x : External) :
    Log → SpdkSequentialFile → List SeqOp → Nat
  | _, h, [] => h.mOffset
  | log, h, op :: ops => cursorAfter x (h.step x log op).log (h.step x log op).self ops

/-- The cursor before the first call and after each call of a sequence. -/
def SpdkSequentialFile.cursors (x : External) :
    Log → SpdkSequentialFile → List SeqOp → List Nat
  | _, h, [] => [h.mOffset]
  | log, h, op :: ops =>
    h.mOffset :: cursors x (h.step x log op).log (h.step x log op).self ops

/-- An adapter mounted at `/mnt`, used for concrete instances. -/
def mntEnv : SpdkEnv :=
  { mDirectory := "/mnt".toList, mRetainCache := false, mPrefetchSize := 0,
    mPrefetchThreshold := 0, mBlobfsDirectIO := 0 }

/-- A world for concrete instances: every blob-filesystem call returns the
result code `rc` (file pointer `1`, stat size `0`, name `/f`, no files), and the
fallback filesystem answers every call with `NotFound`. -/
def constWorld (rc : Int) : External :=
  { reply := fun _ _ =>
      { rc := rc, file := 1, size := 0, name := "/f".toList, files := [],
        status := .NotFound [] [], handle := 0, children := [] }
    strerror := fun _ => [] }

/-! ## Subsystem start-up -/

/-- The process-wide variables of lines 54-59 that start-up writes: `g_fs`
(`0` is `NULL`), `g_spdk_ready` and `g_spdk_start_failure`. Reads and writes of
the two `volatile` flags are taken to be atomic and in program order. -/
structure Globals where
  g_fs : Nat
  g_spdk_ready : Bool
  g_spdk_start_failure : Bool
  deriving DecidableEq, Repr

/-- The initial process state: `g_fs = NULL`, both flags `false`. -/
def Globals.initial : Globals :=
  { g_fs := 0, g_spdk_ready := false, g_spdk_start_failure := false }

/-- What the runtime thread does that start-up can observe: the blob filesystem
completes `spdk_fs_load` and invokes `fs_load_cb(ctx, fs, fserrno)`, or
`spdk_app_start` returns `rc` to `initialize_spdk`. (The `exit` calls of
`initialize_spdk` and `spdk_rocksdb_run` end the process; after them nothing
returns, and they are not events.) -/
inductive RuntimeEvent where
  | load_done (fs : Nat) (fserrno : Int)
  | app_start_returned (rc : Int)
  deriving DecidableEq, Repr

/-- `fs_load_cb(ctx, fs, fserrno)` (lines 703-712). -/
def fs_load_cb (g : Globals) (fs : Nat) (fserrno : Int) : Globals :=
  { g_fs := if fserrno = 0 then fs else g.g_fs
    g_spdk_ready := true
    g_spdk_start_failure := g.g_spdk_start_failure }

/-- The end of `initialize_spdk` (lines 785-800), once `spdk_app_start` has
returned `rc`. -/
def initialize_spdk (g : Globals) (rc : Int) : Globals :=
  if rc ≠ 0 then { g with g_spdk_start_failure := true } else g

/-- The effect of one runtime event on the globals. -/
def Globals.step (g : Globals) : RuntimeEvent → Globals
  | .load_done fs fserrno => fs_load_cb g fs fserrno
  | .app_start_returned rc => initialize_spdk g rc

/-- The globals after a sequence of runtime events. -/
def Globals.after (g : Globals) (es : List RuntimeEvent) : Globals :=
  es.foldl Globals.step g

/-- How the constructor `SpdkEnv::SpdkEnv` ends. -/
inductive Constructed where
  | spinning
  | SpdkAppStartException
  | done
  deriving DecidableEq, Repr

/-- The constructor `SpdkEnv::SpdkEnv` from the busy-wait on (lines 841-849).
`atLoop` are the globals as the `while` condition reads them, `atCheck` as
`if (g_spdk_start_failure)` reads them. While neither flag is set the
constructor keeps spinning. -/
def SpdkEnv.construct (atLoop atCheck : Globals) : Constructed :=
  if !atLoop.g_spdk_ready && !atLoop.g_spdk_start_failure then .spinning
  else if atCheck.g_spdk_start_failure then .SpdkAppStartException
  else .done

/-- The pointer `NewSpdkEnv` returns. -/
inductive EnvPtr where
  | NULL
  | spdk_env
  deriving DecidableEq, Repr

/-- `NewSpdkEnv(...)` (lines 877-896): `none` while the constructor spins; the
exception of the constructor is caught and turned into `NULL`; otherwise the
result depends on `g_fs` as `if (g_fs != NULL)` reads it (`atTest`). -/
def NewSpdkEnv (atLoop atCheck atTest : Globals) : Option EnvPtr :=
  match SpdkEnv.construct atLoop atCheck with
  | .spinning => none
  | .SpdkAppStartException => some .NULL
  | .done => if atTest.g_fs ≠ 0 then some .spdk_env else some .NULL

/-- `NewSpdkEnv` called in the initial process state while the runtime thread
produces the events `es`: the constructing thread reads the globals after the
first `k1`, `k2` and `k3` events at its three reads. -/
def NewSpdkEnv_observing (es : List RuntimeEvent) (k1 k2 k3 : Nat) : Option EnvPtr :=
  NewSpdkEnv (Globals.initial.after (es.take k1)) (Globals.initial.after (es.take k2))
    (Globals.initial.after (es.take k3))

/-! ## Vocabulary of the properties: listing children -/

/-- The names the blob filesystem reports for `files`, in iteration order,
when the calls in `log` came before the first `spdk_file_get_name`. -/
def file_names (x : External) : Log → List Nat → List Str
  | _, [] => []
  | log, file :: files =>
    (x.reply log (Call.spdk_file_get_name file)).name ::
      file_names x (log ++ [Call.spdk_file_get_name file]) files

/-- The name `n` is the first segment below `d` of the path `f`: `f` is `d/n`
or begins with `d/n/`. -/
def IsChildVia (d n f : Str) : Prop :=
  f = d ++ '/' :: n ∨ (d ++ '/' :: n ++ ['/']) <+: f

/-- The loop of `GetChildren` on the files' names alone. -/
def children_fold (dir_name : Str) : List Str → List Str → Except Fault (List Str)
  | set, [] => .ok set
  | set, f :: fs => (children_step dir_name f set).bind fun set2 => children_fold dir_name set2 fs

/-- The characters of `f` after `d` and one more character, up to the next
`/`. -/
def segment_after (d f : Str) : Str :=
  (f.drop (d.length + 1)).takeWhile fun c => c ≠ '/'

/-- A world for concrete instances of `GetChildren`: the blob filesystem holds
the files `1, 2, ...` whose names are `names`, in this order. -/
def listWorld (names : List Str) : External :=
  { reply := fun _ c =>
      { rc := 0, file := 1, size := 0,
        name := (match c with
          | .spdk_file_get_name f => names.getD (f - 1) []
          | _ => []),
        files := List.range' 1 names.length, status := .NotFound [] [], handle := 0,
        children := [] }
    strerror := fun _ => [] }

/-! ## Path normaliser: lemmas -/

theorem insert_end (s : Str) (c : Char) : insert s s.length c = .ok (s ++ [c]) := by
  simp [insert]

theorem incr_ok (n : Nat) (h : n < INT_MAX) : incr n = .ok (n + 1) := by
  unfold incr
  rw [if_pos h]

theorem charAt_last (s : Str) (p : Char) (h : s.getLast? = some p) :
    charAt s (s.length - 1) = p := by
  have hne : s ≠ [] := by
    intro h0
    rw [h0] at h
    simp at h
  have hlen : s.length - 1 < s.length := by
    have := List.length_pos.mpr hne
    omega
  rw [List.getLast?_eq_getLast _ hne] at h
  have hp : s.getLast hne = p := Option.some.inj h
  unfold charAt
  rw [List.getD_eq_getElem _ _ hlen, ← hp, List.getLast_eq_getElem]

theorem emitted_length_le (cs : Str) : ∀ p : Char,
    (emitted (some p) cs).length ≤ cs.length := by
  induction cs with
  | nil => intro p; simp [emitted]
  | cons c cs ih =>
    intro p
    by_cases hpc : p = '/' ∧ c = '/'
    · simp only [emitted, if_pos hpc, List.length_cons]
      have := ih p
      omega
    · simp only [emitted, if_neg hpc, List.length_cons]
      have := ih c
      omega

theorem emitted_none_length_le (cs : Str) : (emitted none cs).length ≤ cs.length + 1 := by
  cases cs with
  | nil => simp [emitted]
  | cons c cs =>
    have := emitted_length_le cs c
    by_cases hc : c = '/'
    · simp only [emitted, if_pos hc, List.length_cons]
      omega
    · simp only [emitted, if_neg hc, List.length_cons]
      omega

theorem sanitize_loop_nonempty (cs : Str) : ∀ (name : Str) (p : Char) (rs : List (Nat × Nat)),
    name.getLast? = some p →
    (name ++ emitted (some p) cs).length ≤ INT_MAX →
    ∃ rs2, sanitize_loop { index := name.length, name := name, reads := rs } cs =
        .ok { index := (name ++ emitted (some p) cs).length
              name := name ++ emitted (some p) cs
              reads := rs ++ rs2 } ∧
      ∀ r ∈ rs2, r.1 < r.2 := by
  induction cs with
  | nil =>
    intro name p rs _ _
    exact ⟨[], by simp [sanitize_loop, emitted], by simp⟩
  | cons c cs ih =>
    intro name p rs hp hb
    have hne : name ≠ [] := by
      intro h0
      rw [h0] at hp
      simp at hp
    have hpos := List.length_pos.mpr hne
    have hlen : name.length ≠ 0 := by omega
    have hread : name.length - 1 < name.length := by omega
    by_cases hpc : p = '/' ∧ c = '/'
    · have hstep : sanitize_step { index := name.length, name := name, reads := rs } c =
          .ok { index := name.length, name := name,
                reads := rs ++ [(name.length - 1, name.length)] } := by
        simp only [sanitize_step, if_neg hlen, charAt_last name p hp]
        rw [if_pos hpc]
      have he : emitted (some p) (c :: cs) = emitted (some p) cs := by
        simp only [emitted, if_pos hpc]
      rw [he] at hb ⊢
      obtain ⟨rs2, h1, h2⟩ := ih name p (rs ++ [(name.length - 1, name.length)]) hp hb
      refine ⟨(name.length - 1, name.length) :: rs2, ?_, ?_⟩
      · simp only [sanitize_loop, hstep, Except.bind]
        rw [h1]
        simp
      · intro r hr
        rcases List.mem_cons.mp hr with h | h
        · rw [h]
          exact hread
        · exact h2 r h
    · have he : emitted (some p) (c :: cs) = c :: emitted (some c) cs := by
        simp only [emitted, if_neg hpc]
      rw [he] at hb ⊢
      have hb2 : ((name ++ [c]) ++ emitted (some c) cs).length ≤ INT_MAX := by
        simpa using hb
      have hlt : name.length < INT_MAX := by
        simp only [List.length_append, List.length_cons] at hb
        omega
      have hstep : sanitize_step { index := name.length, name := name, reads := rs } c =
          .ok { index := (name ++ [c]).length, name := name ++ [c],
                reads := rs ++ [(name.length - 1, name.length)] } := by
        simp only [sanitize_step, if_neg hlen, charAt_last name p hp]
        rw [if_neg hpc, insert_end, incr_ok _ hlt]
        simp [Except.bind]
      obtain ⟨rs2, h1, h2⟩ := ih (name ++ [c]) c (rs ++ [(name.length - 1, name.length)])
        (by simp) hb2
      refine ⟨(name.length - 1, name.length) :: rs2, ?_, ?_⟩
      · simp only [sanitize_loop, hstep, Except.bind]
        rw [h1]
        simp
      · intro r hr
        rcases List.mem_cons.mp hr with h | h
        · rw [h]
          exact hread
        · exact h2 r h

theorem sanitize_loop_start (cs : Str) (hb : (emitted none cs).length ≤ INT_MAX) :
    ∃ rs, sanitize_loop { index := 0, name := [], reads := [] } cs =
        .ok { index := (emitted none cs).length, name := emitted none cs, reads := rs } ∧
      ∀ r ∈ rs, r.1 < r.2 := by
  cases cs with
  | nil => exact ⟨[], by simp [sanitize_loop, emitted], by simp⟩
  | cons c cs =>
    by_cases hc : c = '/'
    · have he : emitted none (c :: cs) = ['/'] ++ emitted (some '/') cs := by
        simp [emitted, hc]
      rw [he] at hb ⊢
      have hstep : sanitize_step { index := 0, name := [], reads := [] } c =
          .ok { index := ['/'].length, name := ['/'], reads := [] } := by
        simp [sanitize_step, hc, insert, incr, INT_MAX, Except.bind]
      obtain ⟨rs2, h1, h2⟩ := sanitize_loop_nonempty cs ['/'] '/' [] (by simp) hb
      refine ⟨rs2, ?_, h2⟩
      simp only [sanitize_loop, hstep, Except.bind]
      rw [h1]
      simp
    · have he : emitted none (c :: cs) = ['/', c] ++ emitted (some c) cs := by
        simp [emitted, hc]
      rw [he] at hb ⊢
      have hstep : sanitize_step { index := 0, name := [], reads := [] } c =
          .ok { index := ['/', c].length, name := ['/', c], reads := [] } := by
        simp [sanitize_step, hc, insert, incr, INT_MAX, Except.bind]
      obtain ⟨rs2, h1, h2⟩ := sanitize_loop_nonempty cs ['/', c] c [] (by simp) hb
      refine ⟨rs2, ?_, h2⟩
      simp only [sanitize_loop, hstep, Except.bind]
      rw [h1]
      simp

theorem erase_last (s : Str) (hne : s ≠ []) : erase s (s.length - 1) 1 = .ok s.dropLast := by
  have hpos := List.length_pos.mpr hne
  have h1 : s.length - 1 + 1 = s.length := by omega
  simp [erase, h1, List.dropLast_eq_take]

theorem substr_drop (input : Str) (n : Nat) (h : n ≤ input.length) :
    substr input n input.length = .ok (input.drop n) := by
  unfold substr
  rw [if_pos h]
  congr 1
  apply List.take_of_length_le
  simp

/-- The trailing-separator step on the scan's output `name`: the result is
`trim name`, and the read is at `name.size() - 1`. -/
theorem finish_eq (name : Str) (rs : List (Nat × Nat)) :
    (if charAt name (size_minus_one name) = '/' then
        (erase name (size_minus_one name) 1).bind fun name2 =>
          (.ok { name := name2, reads := rs ++ [(size_minus_one name, name.length)] } :
            Except Fault Traced)
      else
        .ok { name := name, reads := rs ++ [(size_minus_one name, name.length)] }) =
      .ok { name := trim name, reads := rs ++ [(size_minus_one name, name.length)] } := by
  by_cases hne : name = []
  · subst hne
    have hc : charAt [] (size_minus_one []) ≠ '/' := by decide
    rw [if_neg hc]
    rfl
  · have hpos := List.length_pos.mpr hne
    have hsz : size_minus_one name = name.length - 1 := by
      unfold size_minus_one
      rw [if_neg (by omega)]
    have hl : name.getLast? = some (name.getLast hne) := List.getLast?_eq_getLast _ hne
    rw [hsz, charAt_last name _ hl]
    by_cases hc : name.getLast hne = '/'
    · rw [if_pos hc, erase_last name hne]
      simp [Except.bind, trim, hl, hc]
    · rw [if_neg hc]
      simp [trim, hl, hc]

/-- The normaliser with its reads, on a path at least as long as the mount
directory whose scan stays within the range of `int`: the result is the scan's
output with a final `/` dropped, the reads of the scan are inside the string,
and the last read is `name[name.size() - 1]`. -/
theorem sanitize_path_traced_eq (input mount : Str) (h : mount.length ≤ input.length)
    (hb : (emitted none (input.drop mount.length)).length ≤ INT_MAX) :
    ∃ rs, sanitize_path_traced input mount =
        .ok { name := trim (emitted none (input.drop mount.length))
              reads := rs ++ [(size_minus_one (emitted none (input.drop mount.length)),
                (emitted none (input.drop mount.length)).length)] } ∧
      ∀ r ∈ rs, r.1 < r.2 := by
  obtain ⟨rs, h1, h2⟩ := sanitize_loop_start (input.drop mount.length) hb
  refine ⟨rs, ?_, h2⟩
  unfold sanitize_path_traced
  rw [substr_drop input _ h]
  simp only [Except.bind, h1]
  exact finish_eq _ rs

theorem scan_bound (input mount : Str) (hlen : input.length < INT_MAX) :
    (emitted none (input.drop mount.length)).length ≤ INT_MAX := by
  have h1 := emitted_none_length_le (input.drop mount.length)
  have h2 : (input.drop mount.length).length ≤ input.length := by
    rw [List.length_drop]
    omega
  omega

/-- The normaliser on a path shorter than the mount directory: `substr` throws. -/
theorem sanitize_path_short (input mount : Str) (h : input.length < mount.length) :
    sanitize_path input mount = .error .out_of_range := by
  unfold sanitize_path sanitize_path_traced substr
  rw [if_neg (by omega)]
  rfl

/-! ## Path normaliser: properties of the scan -/

theorem initial_length_le (m p : Str) (h : m <+: p) : m.length ≤ p.length :=
  List.IsPrefix.length_le h

theorem initial_drop_ne_nil (m p : Str) (h : m <+: p) (hne : p ≠ m) :
    p.drop m.length ≠ [] := by
  obtain ⟨t, ht⟩ := h
  subst ht
  intro h0
  apply hne
  simp at h0
  rw [h0]
  simp

theorem emitted_none_cons_ne_nil (c : Char) (cs : Str) : emitted none (c :: cs) ≠ [] := by
  by_cases hc : c = '/' <;> simp [emitted, hc]

theorem sanitize_path_traced_root (m : Str) :
    sanitize_path_traced m m = .ok { name := [], reads := [(U64 - 1, 0)] } := by
  unfold sanitize_path_traced
  rw [substr_drop m _ (Nat.le_refl _)]
  have hd : m.drop m.length = [] := by simp
  rw [hd]
  rfl

/-- C4, on the code. Under the precondition that `m` is a literal prefix of
`p`, and for `p` shorter than `INT_MAX` (the range of the source's `int index`),
`sanitize_path(p, m)` throws nothing and returns a string, but not every
position it reads lies inside the string read: the reads of `name[index - 1]`
do, and so does the read of `name[name.size() - 1]` when `p` is longer than
`m`; when `p` is `m` itself, `name` is empty and the one read made is at
position `2 ^ 64 - 1` of a string of size `0`. -/
theorem sanitize_path_faults (m p : Str) (hpre : m <+: p) (hlen : p.length < INT_MAX) :
    ∃ t, sanitize_path_traced p m = .ok t ∧
      ((∀ r ∈ t.reads, r.1 < r.2) ↔ p ≠ m) ∧
      (p = m → t.name = [] ∧ t.reads = [(U64 - 1, 0)]) := by
  by_cases h : p = m
  · subst h
    refine ⟨_, sanitize_path_traced_root p, ?_, fun _ => ⟨rfl, rfl⟩⟩
    constructor
    · intro hall
      have := hall (U64 - 1, 0) (by simp)
      simp at this
    · intro hne
      exact absurd rfl hne
  · obtain ⟨rs, h1, h2⟩ := sanitize_path_traced_eq p m (initial_length_le m p hpre)
      (scan_bound p m hlen)
    refine ⟨_, h1, ?_, fun hpm => absurd hpm h⟩
    constructor
    · intro _
      exact h
    · intro _ r hr
      rcases List.mem_append.mp hr with hr1 | hr1
      · exact h2 r hr1
      · have hd := initial_drop_ne_nil m p hpre h
        obtain ⟨c, cs, hcs⟩ := List.exists_cons_of_ne_nil hd
        have hne := emitted_none_cons_ne_nil c cs
        rw [← hcs] at hne
        have hpos := List.length_pos.mpr hne
        have hsz : size_minus_one (emitted none (p.drop m.length)) =
            (emitted none (p.drop m.length)).length - 1 := by
          unfold size_minus_one
          rw [if_neg (by omega)]
        rw [List.mem_singleton] at hr1
        rw [hr1, hsz]
        show (emitted none (p.drop m.length)).length - 1 < (emitted none (p.drop m.length)).length
        omega

/-- Witness for C4: the failing input `p = m = "/mnt"`, where the one read is at
position `2 ^ 64 - 1` of the empty `name`; and `p = "/mnt/a"`, where all reads
are inside. -/
theorem sanitize_path_faults_witness :
    (∃ t, sanitize_path_traced "/mnt".toList "/mnt".toList = .ok t ∧
      ((∀ r ∈ t.reads, r.1 < r.2) ↔ "/mnt".toList ≠ "/mnt".toList) ∧
      ("/mnt".toList = "/mnt".toList → t.name = [] ∧ t.reads = [(U64 - 1, 0)])) ∧
    sanitize_path_traced "/mnt".toList "/mnt".toList =
      .ok { name := [], reads := [(2 ^ 64 - 1, 0)] } ∧
    sanitize_path_traced "/mnt/a".toList "/mnt".toList =
      .ok { name := "/a".toList, reads := [(0, 1), (1, 2)] } :=
  ⟨sanitize_path_faults "/mnt".toList "/mnt".toList (by decide) (by decide),
    by decide, by decide⟩

/-! ## Facade: scope -/

theorem in_scope_iff (env : SpdkEnv) (fname : Str) :
    env.in_scope fname = true ↔ env.mDirectory <+: fname := by
  unfold SpdkEnv.in_scope
  rw [decide_eq_true_iff, List.prefix_iff_eq_take]
  exact eq_comm

theorem in_scope_false (env : SpdkEnv) (fname : Str) (h : ¬ env.mDirectory <+: fname) :
    env.in_scope fname = false := by
  cases hs : env.in_scope fname with
  | false => rfl
  | true => exact absurd ((in_scope_iff env fname).mp hs) h

theorem find_isSome_iff (s pat : Str) : (find s pat 0).isSome = true ↔ pat <:+: s := by
  unfold find
  rw [List.find?_isSome]
  constructor
  · rintro ⟨i, _, hi⟩
    have hp : pat <+: s.drop i := List.isPrefixOf_iff_prefix.mp hi
    exact List.IsInfix.trans hp.isInfix (List.drop_suffix i s).isInfix
  · rintro ⟨a, b, hab⟩
    refine ⟨a.length, ?_, ?_⟩
    · rw [List.mem_range'_1]
      subst hab
      simp
      omega
    · apply List.isPrefixOf_iff_prefix.mpr
      subst hab
      simp

/-- C1 (amended). For a path that does not have the mount directory as a
literal prefix the scope test `fname.compare(0, |mount|, mount) == 0` is false,
and `NewSequentialFile`, `NewRandomAccessFile`, `NewWritableFile` and (when the
path does not contain `archive`) `GetChildren` make exactly one external call,
to the fallback filesystem with the original path, and return its result: the
path is neither normalised nor passed to the blob filesystem. -/
theorem out_of_scope_delegates (env : SpdkEnv) (x : External) (log : Log) (fname : Str)
    (options : Nat) (result : List Str) (hout : ¬ env.mDirectory <+: fname) :
    env.in_scope fname = false ∧
    env.NewSequentialFile x log fname options =
      .ok { status := (x.reply log (Call.base_NewSequentialFile fname options)).status
            result := .base (x.reply log (Call.base_NewSequentialFile fname options)).handle
            log := log ++ [Call.base_NewSequentialFile fname options] } ∧
    env.NewRandomAccessFile x log fname options =
      .ok { status := (x.reply log (Call.base_NewRandomAccessFile fname options)).status
            result := .base (x.reply log (Call.base_NewRandomAccessFile fname options)).handle
            log := log ++ [Call.base_NewRandomAccessFile fname options] } ∧
    env.NewWritableFile x log fname options =
      .ok { status := (x.reply log (Call.base_NewWritableFile fname options)).status
            result := .base (x.reply log (Call.base_NewWritableFile fname options)).handle
            log := log ++ [Call.base_NewWritableFile fname options] } ∧
    (¬ ("archive".toList <:+: fname) →
      env.GetChildren x log fname result =
        .ok { status := (x.reply log (Call.base_GetChildren fname)).status
              result := (x.reply log (Call.base_GetChildren fname)).children
              log := log ++ [Call.base_GetChildren fname] }) := by
  have hs := in_scope_false env fname hout
  refine ⟨hs, ?_, ?_, ?_, ?_⟩
  · simp [SpdkEnv.NewSequentialFile, hs, SpdkEnv.delegate_open]
  · simp [SpdkEnv.NewRandomAccessFile, hs, SpdkEnv.delegate_open]
  · simp [SpdkEnv.NewWritableFile, hs, SpdkEnv.delegate_open]
  · intro harch
    have hf : (find fname "archive".toList 0).isSome = false := by
      cases hfs : (find fname "archive".toList 0).isSome with
      | false => rfl
      | true => exact absurd ((find_isSome_iff _ _).mp hfs) harch
    unfold SpdkEnv.GetChildren
    rw [hf, hs]
    rfl

/-- Witness for C1 (amended): the out-of-scope path `/tmp/a` under the mount
directory `/mnt`. -/
theorem out_of_scope_delegates_witness :
    ¬ (mntEnv.mDirectory <+: "/tmp/a".toList) ∧
    mntEnv.in_scope "/tmp/a".toList = false ∧
    ((mntEnv.NewSequentialFile (constWorld 0) [] "/tmp/a".toList 0).map fun o => o.log) =
      .ok [Call.base_NewSequentialFile "/tmp/a".toList 0] :=
  ⟨by decide,
    (out_of_scope_delegates mntEnv (constWorld 0) [] "/tmp/a".toList 0 [] (by decide)).1,
    by rw [(out_of_scope_delegates mntEnv (constWorld 0) [] "/tmp/a".toList 0 []
      (by decide)).2.1]; rfl⟩

/-- C1 fails for the operations without a scope test, and for `GetChildren` on
a path containing `archive`. Under the mount directory `/mnt` the paths `/tmp/a`,
`/tmp/b` and `/tmp/archive` are out of scope, yet `FileExists`, `GetFileSize`,
`DeleteFile`, `RenameFile` and `LockFile` strip and normalise `/tmp/a` to `/a`,
hand it to the blob filesystem and, when its call returns `0`, return `OK`
without calling the fallback (whose answer would have been `NotFound`); and
`GetChildren("/tmp/archive")` returns `OK` without any call. -/
theorem file_exists_ignores_scope :
    ¬ (mntEnv.mDirectory <+: "/tmp/a".toList) ∧
    ¬ (mntEnv.mDirectory <+: "/tmp/b".toList) ∧
    ¬ (mntEnv.mDirectory <+: "/tmp/archive".toList) ∧
    ((constWorld 0).reply [] (Call.base_FileExists "/tmp/a".toList)).status =
      Status.NotFound [] [] ∧
    ((mntEnv.FileExists (constWorld 0) [] "/tmp/a".toList).map fun o => (o.status, o.log)) =
      .ok (Status.OK, [Call.spdk_fs_file_stat "/a".toList]) ∧
    ((mntEnv.GetFileSize (constWorld 0) [] "/tmp/a".toList).map fun o => (o.status, o.log)) =
      .ok (Status.OK, [Call.spdk_fs_file_stat "/a".toList]) ∧
    ((mntEnv.DeleteFile (constWorld 0) [] "/tmp/a".toList).map fun o => (o.status, o.log)) =
      .ok (Status.OK, [Call.spdk_fs_delete_file "/a".toList]) ∧
    ((mntEnv.RenameFile (constWorld 0) [] "/tmp/a".toList "/tmp/b".toList).map
        fun o => (o.status, o.log)) =
      .ok (Status.OK, [Call.spdk_fs_rename_file "/a".toList "/b".toList]) ∧
    ((mntEnv.LockFile (constWorld 0) [] "/tmp/a".toList).map fun o => (o.status, o.log)) =
      .ok (Status.OK, [Call.spdk_fs_open_file "/a".toList SPDK_BLOBFS_OPEN_CREATE,
        Call.spdk_file_set_retain_cache 1 false, Call.spdk_file_set_direct_io 1 0]) ∧
    ((mntEnv.GetChildren (constWorld 0) [] "/tmp/archive".toList []).map
        fun o => (o.status, o.result, o.log)) = .ok (Status.OK, [], []) := by
  refine ⟨by decide, by decide, by decide, rfl, by decide, by decide, by decide, by decide,
    by decide, by decide⟩

/-! ## Error translation -/

theorem seq_read_ok (x : External) (log : Log) (h : SpdkSequentialFile) (n scratch : Nat)
    (hrc : 0 ≤ (x.reply log (Call.spdk_file_read h.mFile scratch h.mOffset n)).rc) :
    h.Read x log n scratch =
      { status := Status.OK
        result := some ⟨scratch,
          (x.reply log (Call.spdk_file_read h.mFile scratch h.mOffset n)).rc.toNat⟩
        self := { h with mOffset := (h.mOffset +
          (x.reply log (Call.spdk_file_read h.mFile scratch h.mOffset n)).rc.toNat) % U64 }
        log := log ++ [Call.spdk_file_read h.mFile scratch h.mOffset n] } := by
  unfold SpdkSequentialFile.Read
  simp only [ge_iff_le]
  rw [if_pos hrc]

theorem seq_read_err (x : External) (log : Log) (h : SpdkSequentialFile) (n scratch : Nat)
    (hrc : ¬ 0 ≤ (x.reply log (Call.spdk_file_read h.mFile scratch h.mOffset n)).rc) :
    h.Read x log n scratch =
      { status := ioError x
          (x.reply (log ++ [Call.spdk_file_read h.mFile scratch h.mOffset n])
            (Call.spdk_file_get_name h.mFile)).name
          (x.reply log (Call.spdk_file_read h.mFile scratch h.mOffset n)).rc
        result := none
        self := h
        log := log ++ [Call.spdk_file_read h.mFile scratch h.mOffset n,
          Call.spdk_file_get_name h.mFile] } := by
  unfold SpdkSequentialFile.Read
  simp only [ge_iff_le]
  rw [if_neg hrc]

theorem random_read_ok (x : External) (log : Log) (h : SpdkRandomAccessFile)
    (offset n scratch : Nat)
    (hrc : 0 ≤ (x.reply log (Call.spdk_file_read h.mFile scratch offset n)).rc) :
    h.Read x log offset n scratch =
      { status := Status.OK, result := some ⟨scratch, n⟩, self := h,
        log := log ++ [Call.spdk_file_read h.mFile scratch offset n] } := by
  unfold SpdkRandomAccessFile.Read
  simp only [ge_iff_le]
  rw [if_pos hrc]

theorem random_read_err (x : External) (log : Log) (h : SpdkRandomAccessFile)
    (offset n scratch : Nat)
    (hrc : ¬ 0 ≤ (x.reply log (Call.spdk_file_read h.mFile scratch offset n)).rc) :
    h.Read x log offset n scratch =
      { status := ioError x
          (x.reply (log ++ [Call.spdk_file_read h.mFile scratch offset n])
            (Call.spdk_file_get_name h.mFile)).name
          (x.reply log (Call.spdk_file_read h.mFile scratch offset n)).rc
        result := none
        self := h
        log := log ++ [Call.spdk_file_read h.mFile scratch offset n,
          Call.spdk_file_get_name h.mFile] } := by
  unfold SpdkRandomAccessFile.Read
  simp only [ge_iff_le]
  rw [if_neg hrc]

theorem append_ok (x : External) (log : Log) (h : SpdkWritableFile) (data : Slice)
    (hrc : 0 ≤ (x.reply log (Call.spdk_file_write h.mFile data.data h.mSize data.size)).rc) :
    h.Append x log data =
      { status := Status.OK
        self := { h with mSize := (h.mSize + data.size) % U64 }
        log := log ++ [Call.spdk_file_write h.mFile data.data h.mSize data.size] } := by
  unfold SpdkWritableFile.Append
  simp only [ge_iff_le]
  rw [if_pos hrc]

theorem append_err (x : External) (log : Log) (h : SpdkWritableFile) (data : Slice)
    (hrc : ¬ 0 ≤ (x.reply log (Call.spdk_file_write h.mFile data.data h.mSize data.size)).rc) :
    h.Append x log data =
      { status := ioError x
          (x.reply (log ++ [Call.spdk_file_write h.mFile data.data h.mSize data.size])
            (Call.spdk_file_get_name h.mFile)).name
          (x.reply log (Call.spdk_file_write h.mFile data.data h.mSize data.size)).rc
        self := h
        log := log ++ [Call.spdk_file_write h.mFile data.data h.mSize data.size,
          Call.spdk_file_get_name h.mFile] } := by
  unfold SpdkWritableFile.Append
  simp only [ge_iff_le]
  rw [if_neg hrc]

theorem finish_ok (x : External) (log : Log) (h ok : SpdkWritableFile) (c : Call)
    (hrc : (x.reply log c).rc = 0) :
    SpdkWritableFile.finish x log h ok c = { status := Status.OK, self := ok, log := log ++ [c] } := by
  unfold SpdkWritableFile.finish
  simp only []
  rw [if_pos hrc]

theorem finish_err (x : External) (log : Log) (h ok : SpdkWritableFile) (c : Call)
    (hrc : ¬ (x.reply log c).rc = 0) :
    SpdkWritableFile.finish x log h ok c =
      { status := ioError x (x.reply (log ++ [c]) (Call.spdk_file_get_name h.mFile)).name
          (x.reply log c).rc
        self := h
        log := log ++ [c, Call.spdk_file_get_name h.mFile] } := by
  unfold SpdkWritableFile.finish
  simp only []
  rw [if_neg hrc]

theorem translates_ite (x : External) (name : Str) (rc : Int) (success : Prop)
    [Decidable success] :
    Translates x (if success then Status.OK else ioError x name rc) name rc success := by
  unfold Translates ioError
  by_cases h : success <;> simp [h]

theorem toInt32_neg (rc : Int) (h1 : -(2 ^ 31) < rc) (h2 : rc < 2 ^ 31) :
    toInt32 (-rc) = -rc := by
  unfold toInt32
  omega

theorem finish_status (x : External) (log : Log) (h ok : SpdkWritableFile) (c : Call) :
    (SpdkWritableFile.finish x log h ok c).status =
      if (x.reply log c).rc = 0 then Status.OK
      else ioError x (x.reply (log ++ [c]) (Call.spdk_file_get_name h.mFile)).name
        (x.reply log c).rc := by
  by_cases hrc : (x.reply log c).rc = 0
  · rw [finish_ok x log h ok c hrc, if_pos hrc]
  · rw [finish_err x log h ok c hrc, if_neg hrc]

theorem open_in_scope_status {σ : Type} (env : SpdkEnv) (x : External) (log : Log)
    (fname name : Str) (flags : Nat) (wrap : Nat → σ)
    (hname : sanitize_path fname env.mDirectory = .ok name) :
    ∃ o, env.open_in_scope x log fname flags wrap = .ok o ∧
      Translates x o.status name (x.reply log (Call.spdk_fs_open_file name flags)).rc
        ((x.reply log (Call.spdk_fs_open_file name flags)).rc = 0) := by
  simp only [SpdkEnv.open_in_scope, hname, Except.bind]
  split
  · rename_i h
    refine ⟨_, rfl, ?_⟩
    simpa [h] using translates_ite x name _ ((x.reply log (Call.spdk_fs_open_file name flags)).rc = 0)
  · rename_i h
    refine ⟨_, rfl, ?_⟩
    simpa [h] using translates_ite x name _ ((x.reply log (Call.spdk_fs_open_file name flags)).rc = 0)

/-- C5 (amended). The error translation rule as applied by the handle
operations sequential `Read`, random-access `Read`, `Append`, `Truncate`,
`Sync`, `Fsync`, `Allocate`, `RangeSync` and by the facade's open and lock
operations (the three opens on an in-scope path, `LockFile`), for every result
code `rc` of their blob-filesystem call: the two reads and `Append` return `OK`
if and only if `rc ≥ 0`; `Truncate`, `Sync`, `Fsync`, `Allocate`, `RangeSync`,
the opens and `LockFile` return `OK` if and only if `rc = 0`; and whenever one
of these operations does not return `OK` (so whenever `rc` is negative) it
returns `IOError(name, strerror(errno))`, where `name` is the file's name (the
canonical path for the facade) and `errno = (int)(-rc)`, which is `-rc` for
every `rc` with `-2^31 < rc < 2^31`. -/
theorem error_translation (x : External) (log : Log) :
    (∀ (h : SpdkSequentialFile) (n scratch : Nat),
      Translates x (h.Read x log n scratch).status
        (x.reply (log ++ [Call.spdk_file_read h.mFile scratch h.mOffset n])
          (Call.spdk_file_get_name h.mFile)).name
        (x.reply log (Call.spdk_file_read h.mFile scratch h.mOffset n)).rc
        (0 ≤ (x.reply log (Call.spdk_file_read h.mFile scratch h.mOffset n)).rc)) ∧
    (∀ (h : SpdkRandomAccessFile) (offset n scratch : Nat),
      Translates x (h.Read x log offset n scratch).status
        (x.reply (log ++ [Call.spdk_file_read h.mFile scratch offset n])
          (Call.spdk_file_get_name h.mFile)).name
        (x.reply log (Call.spdk_file_read h.mFile scratch offset n)).rc
        (0 ≤ (x.reply log (Call.spdk_file_read h.mFile scratch offset n)).rc)) ∧
    (∀ (h : SpdkWritableFile) (data : Slice),
      Translates x (h.Append x log data).status
        (x.reply (log ++ [Call.spdk_file_write h.mFile data.data h.mSize data.size])
          (Call.spdk_file_get_name h.mFile)).name
        (x.reply log (Call.spdk_file_write h.mFile data.data h.mSize data.size)).rc
        (0 ≤ (x.reply log (Call.spdk_file_write h.mFile data.data h.mSize data.size)).rc)) ∧
    (∀ (h : SpdkWritableFile) (size : Nat),
      Translates x (h.Truncate x log size).status
        (x.reply (log ++ [Call.spdk_file_truncate h.mFile size])
          (Call.spdk_file_get_name h.mFile)).name
        (x.reply log (Call.spdk_file_truncate h.mFile size)).rc
        ((x.reply log (Call.spdk_file_truncate h.mFile size)).rc = 0)) ∧
    (∀ (h : SpdkWritableFile) (offset len : Nat),
      Translates x (h.Allocate x log offset len).status
        (x.reply (log ++ [Call.spdk_file_truncate h.mFile ((offset + len) % U64)])
          (Call.spdk_file_get_name h.mFile)).name
        (x.reply log (Call.spdk_file_truncate h.mFile ((offset + len) % U64))).rc
        ((x.reply log (Call.spdk_file_truncate h.mFile ((offset + len) % U64))).rc = 0)) ∧
    (∀ (h : SpdkWritableFile) (offset nbytes : Nat) (status : Status),
      status = (h.Sync x log).status ∨ status = (h.Fsync x log).status ∨
        status = (h.RangeSync x log offset nbytes).status →
      Translates x status
        (x.reply (log ++ [Call.spdk_file_sync h.mFile]) (Call.spdk_file_get_name h.mFile)).name
        (x.reply log (Call.spdk_file_sync h.mFile)).rc
        ((x.reply log (Call.spdk_file_sync h.mFile)).rc = 0)) ∧
    (∀ (env : SpdkEnv) (fname name : Str) (options : Nat),
      env.in_scope fname = true → sanitize_path fname env.mDirectory = .ok name →
      (∃ o, env.NewSequentialFile x log fname options = .ok o ∧
        Translates x o.status name (x.reply log (Call.spdk_fs_open_file name 0)).rc
          ((x.reply log (Call.spdk_fs_open_file name 0)).rc = 0)) ∧
      (∃ o, env.NewRandomAccessFile x log fname options = .ok o ∧
        Translates x o.status name (x.reply log (Call.spdk_fs_open_file name 0)).rc
          ((x.reply log (Call.spdk_fs_open_file name 0)).rc = 0)) ∧
      (∃ o, env.NewWritableFile x log fname options = .ok o ∧
        Translates x o.status name
          (x.reply log (Call.spdk_fs_open_file name SPDK_BLOBFS_OPEN_CREATE)).rc
          ((x.reply log (Call.spdk_fs_open_file name SPDK_BLOBFS_OPEN_CREATE)).rc = 0))) ∧
    (∀ (env : SpdkEnv) (fname name : Str),
      sanitize_path fname env.mDirectory = .ok name →
      ∃ o, env.LockFile x log fname = .ok o ∧
        Translates x o.status name
          (x.reply log (Call.spdk_fs_open_file name SPDK_BLOBFS_OPEN_CREATE)).rc
          ((x.reply log (Call.spdk_fs_open_file name SPDK_BLOBFS_OPEN_CREATE)).rc = 0)) ∧
    (∀ rc : Int, -(2 ^ 31) < rc → rc < 2 ^ 31 → toInt32 (-rc) = -rc) := by
  refine ⟨?_, ?_, ?_, ?_, ?_, ?_, ?_, ?_, toInt32_neg⟩
  · intro h n scratch
    have hs : (h.Read x log n scratch).status =
        if 0 ≤ (x.reply log (Call.spdk_file_read h.mFile scratch h.mOffset n)).rc
        then Status.OK
        else ioError x (x.reply (log ++ [Call.spdk_file_read h.mFile scratch h.mOffset n])
          (Call.spdk_file_get_name h.mFile)).name
          (x.reply log (Call.spdk_file_read h.mFile scratch h.mOffset n)).rc := by
      by_cases hrc : 0 ≤ (x.reply log (Call.spdk_file_read h.mFile scratch h.mOffset n)).rc
      · rw [seq_read_ok x log h n scratch hrc, if_pos hrc]
      · rw [seq_read_err x log h n scratch hrc, if_neg hrc]
    rw [hs]
    exact translates_ite _ _ _ _
  · intro h offset n scratch
    have hs : (h.Read x log offset n scratch).status =
        if 0 ≤ (x.reply log (Call.spdk_file_read h.mFile scratch offset n)).rc
        then Status.OK
        else ioError x (x.reply (log ++ [Call.spdk_file_read h.mFile scratch offset n])
          (Call.spdk_file_get_name h.mFile)).name
          (x.reply log (Call.spdk_file_read h.mFile scratch offset n)).rc := by
      by_cases hrc : 0 ≤ (x.reply log (Call.spdk_file_read h.mFile scratch offset n)).rc
      · rw [random_read_ok x log h offset n scratch hrc, if_pos hrc]
      · rw [random_read_err x log h offset n scratch hrc, if_neg hrc]
    rw [hs]
    exact translates_ite _ _ _ _
  · intro h data
    have hs : (h.Append x log data).status =
        if 0 ≤ (x.reply log (Call.spdk_file_write h.mFile data.data h.mSize data.size)).rc
        then Status.OK
        else ioError x
          (x.reply (log ++ [Call.spdk_file_write h.mFile data.data h.mSize data.size])
            (Call.spdk_file_get_name h.mFile)).name
          (x.reply log (Call.spdk_file_write h.mFile data.data h.mSize data.size)).rc := by
      by_cases hrc :
          0 ≤ (x.reply log (Call.spdk_file_write h.mFile data.data h.mSize data.size)).rc
      · rw [append_ok x log h data hrc, if_pos hrc]
      · rw [append_err x log h data hrc, if_neg hrc]
    rw [hs]
    exact translates_ite _ _ _ _
  · intro h size
    unfold SpdkWritableFile.Truncate
    rw [finish_status]
    exact translates_ite _ _ _ _
  · intro h offset len
    unfold SpdkWritableFile.Allocate
    rw [finish_status]
    exact translates_ite _ _ _ _
  · intro h offset nbytes status hst
    have hall : status =
        if (x.reply log (Call.spdk_file_sync h.mFile)).rc = 0 then Status.OK
        else ioError x
          (x.reply (log ++ [Call.spdk_file_sync h.mFile]) (Call.spdk_file_get_name h.mFile)).name
          (x.reply log (Call.spdk_file_sync h.mFile)).rc := by
      rcases hst with h1 | h1 | h1
      · rw [h1]
        unfold SpdkWritableFile.Sync
        rw [finish_status]
      · rw [h1]
        unfold SpdkWritableFile.Fsync
        rw [finish_status]
      · rw [h1]
        unfold SpdkWritableFile.RangeSync
        rw [finish_status]
    rw [hall]
    exact translates_ite _ _ _ _
  · intro env fname name options hin hname
    refine ⟨?_, ?_, ?_⟩
    · unfold SpdkEnv.NewSequentialFile
      rw [if_pos hin]
      exact open_in_scope_status env x log fname name 0 _ hname
    · unfold SpdkEnv.NewRandomAccessFile
      rw [if_pos hin]
      exact open_in_scope_status env x log fname name 0 _ hname
    · unfold SpdkEnv.NewWritableFile
      rw [if_pos hin]
      exact open_in_scope_status env x log fname name _ _ hname
  · intro env fname name hname
    simp only [SpdkEnv.LockFile, hname, Except.bind]
    split
    · rename_i h
      refine ⟨_, rfl, ?_⟩
      simpa [h] using translates_ite x name _
        ((x.reply log (Call.spdk_fs_open_file name SPDK_BLOBFS_OPEN_CREATE)).rc = 0)
    · rename_i h
      refine ⟨_, rfl, ?_⟩
      simpa [h] using translates_ite x name _
        ((x.reply log (Call.spdk_fs_open_file name SPDK_BLOBFS_OPEN_CREATE)).rc = 0)

/-- Witness for C5 (amended): a `Truncate` whose call returns `-5` gives
`IOError` with the file's name and the string of error number `5`. -/
theorem error_translation_witness :
    (SpdkWritableFile.new 1).Truncate (constWorld (-5)) [] 8 =
        { status := Status.IOError "/f".toList ((constWorld (-5)).strerror 5)
          self := SpdkWritableFile.new 1
          log := [Call.spdk_file_truncate 1 8, Call.spdk_file_get_name 1] } ∧
    Translates (constWorld (-5)) ((SpdkWritableFile.new 1).Truncate (constWorld (-5)) [] 8).status
      "/f".toList (-5) ((-5 : Int) = 0) :=
  ⟨rfl, (error_translation (constWorld (-5)) []).2.2.2.1 (SpdkWritableFile.new 1) 8⟩

/-- C5 fails for the operations that test `!rc`: a `Truncate` whose call
returns the non-negative code `1` does not return `OK`. -/
theorem truncate_positive_code :
    0 ≤ ((constWorld 1).reply [] (Call.spdk_file_truncate 1 8)).rc ∧
    ((SpdkWritableFile.new 1).Truncate (constWorld 1) [] 8).status ≠ Status.OK := by
  refine ⟨by decide, by decide⟩

/-! ## Writable handle: appends -/

theorem totalSize_cons (d : Slice) (ds : List Slice) :
    totalSize (d :: ds) = d.size + totalSize ds := by
  simp [totalSize]

theorem appendAll_general (x : External) (ds : List Slice) :
    ∀ (log : Log) (h : SpdkWritableFile), h.mSize < U64 →
      SpdkWritableFile.writesSucceed x log h ds →
      (h.appendAll x log ds).1.mSize = (h.mSize + totalSize ds) % U64 ∧
      (h.appendAll x log ds).2 = log ++ (List.range ds.length).map fun k =>
        Call.spdk_file_write h.mFile (ds.getD k ⟨0, 0⟩).data
          ((h.mSize + totalSize (ds.take k)) % U64) (ds.getD k ⟨0, 0⟩).size := by
  induction ds with
  | nil =>
    intro log h hlt _
    simp [SpdkWritableFile.appendAll, totalSize, Nat.mod_eq_of_lt hlt]
  | cons d ds ih =>
    intro log h hlt hok
    obtain ⟨hrc, hrest⟩ := hok
    rw [append_ok x log h d hrc] at hrest
    have hlt2 : (h.mSize + d.size) % U64 < U64 := Nat.mod_lt _ (by decide)
    obtain ⟨ih1, ih2⟩ := ih _ _ hlt2 hrest
    simp only [SpdkWritableFile.appendAll]
    rw [append_ok x log h d hrc]
    constructor
    · rw [ih1, totalSize_cons]
      simp only [Nat.mod_add_mod, Nat.add_assoc]
    · rw [ih2, List.length_cons, List.range_succ_eq_map, List.map_cons, List.map_map]
      simp only [List.append_assoc, List.singleton_append, List.getD_cons_zero, List.take_zero,
        totalSize, List.map_nil, List.sum_nil, Nat.add_zero, Nat.mod_eq_of_lt hlt]
      congr 2
      apply List.map_congr_left
      intro k _
      simp only [Function.comp, List.getD_cons_succ, List.take_succ_cons, List.map_cons,
        List.sum_cons, Nat.mod_add_mod, Nat.add_assoc]

/-- C6 (amended). From a freshly constructed writable handle, when every write
of a sequence of `Append` calls succeeds, the log grows by exactly one write
per call, the `k`-th write being issued at offset (sum of the lengths of the
earlier appends) mod `2^64`, and `GetFileSize()` afterwards is (sum of all
lengths) mod `2^64`; when the sum of all lengths is below `2^64` these are the
sums themselves. An `Append` whose write returns a negative code returns
`IOError`, and the handle (hence the tracked size) is unchanged. -/
theorem append_tracks_size (x : External) (log : Log) (file : Nat) (ds : List Slice)
    (hok : SpdkWritableFile.writesSucceed x log (SpdkWritableFile.new file) ds) :
    ((SpdkWritableFile.new file).appendAll x log ds).1.GetFileSize = totalSize ds % U64 ∧
    ((SpdkWritableFile.new file).appendAll x log ds).2.length = log.length + ds.length ∧
    ((SpdkWritableFile.new file).appendAll x log ds).2.take log.length = log ∧
    (∀ (k : Nat) (hk : k < ds.length),
      ((SpdkWritableFile.new file).appendAll x log ds).2.get? (log.length + k) =
        some (Call.spdk_file_write file (ds.get ⟨k, hk⟩).data
          (totalSize (ds.take k) % U64) (ds.get ⟨k, hk⟩).size)) ∧
    (totalSize ds < U64 →
      ((SpdkWritableFile.new file).appendAll x log ds).1.GetFileSize = totalSize ds ∧
      ∀ (k : Nat) (hk : k < ds.length),
        ((SpdkWritableFile.new file).appendAll x log ds).2.get? (log.length + k) =
          some (Call.spdk_file_write file (ds.get ⟨k, hk⟩).data
            (totalSize (ds.take k)) (ds.get ⟨k, hk⟩).size)) ∧
    (∀ (h : SpdkWritableFile) (l : Log) (d : Slice),
      (x.reply l (Call.spdk_file_write h.mFile d.data h.mSize d.size)).rc < 0 →
      (∃ name msg, (h.Append x l d).status = Status.IOError name msg) ∧
      (h.Append x l d).self = h) := by
  obtain ⟨h1, h2⟩ := appendAll_general x ds log (SpdkWritableFile.new file)
    (by simp [SpdkWritableFile.new, U64]) hok
  simp only [SpdkWritableFile.new, Nat.zero_add] at h1 h2
  have hk : ∀ (k : Nat) (hk : k < ds.length),
      ((SpdkWritableFile.new file).appendAll x log ds).2.get? (log.length + k) =
        some (Call.spdk_file_write file (ds.get ⟨k, hk⟩).data
          (totalSize (ds.take k) % U64) (ds.get ⟨k, hk⟩).size) := by
    intro k hk
    simp only [SpdkWritableFile.new]
    rw [h2, List.get?_eq_getElem?, List.getElem?_append_right (Nat.le_add_right _ _)]
    simp [hk, List.getD_eq_getElem]
  refine ⟨h1, ?_, ?_, hk, ?_, ?_⟩
  · simp only [SpdkWritableFile.new]
    rw [h2]
    simp
  · simp only [SpdkWritableFile.new]
    rw [h2]
    simp
  · intro hlt
    refine ⟨by
      show ((SpdkWritableFile.appendAll x log ⟨file, 0⟩ ds).1).mSize = totalSize ds
      rw [h1, Nat.mod_eq_of_lt hlt], ?_⟩
    intro k hkl
    rw [hk k hkl]
    have hle : totalSize (ds.take k) ≤ totalSize ds := by
      unfold totalSize
      exact List.Sublist.sum_le_sum ((List.take_sublist k ds).map _) (by simp)
    rw [Nat.mod_eq_of_lt (lt_of_le_of_lt hle hlt)]
  · intro h l d hrc
    rw [append_err x l h d (by omega)]
    exact ⟨⟨_, _, rfl⟩, rfl⟩

/-- Witness for C6 (amended): appends of 3 and 5 bytes to a fresh handle. -/
theorem append_tracks_size_witness :
    ((SpdkWritableFile.new 1).appendAll (constWorld 0) [] [⟨0, 3⟩, ⟨0, 5⟩]).1.GetFileSize =
      totalSize [⟨0, 3⟩, ⟨0, 5⟩] % U64 ∧
    ((SpdkWritableFile.new 1).appendAll (constWorld 0) [] [⟨0, 3⟩, ⟨0, 5⟩]).2 =
      [Call.spdk_file_write 1 0 0 3, Call.spdk_file_write 1 0 3 5] :=
  ⟨(append_tracks_size (constWorld 0) [] 1 [⟨0, 3⟩, ⟨0, 5⟩]
      ⟨by decide, by decide, trivial⟩).1, by decide⟩

/-- C6 fails once the lengths add up to `2^64`: after two successful appends
of `2^63` bytes each the tracked size is `0`, not `2^64`. -/
theorem append_size_wraps :
    SpdkWritableFile.writesSucceed (constWorld 0) [] (SpdkWritableFile.new 1)
      [⟨0, 2 ^ 63⟩, ⟨0, 2 ^ 63⟩] ∧
    ((SpdkWritableFile.new 1).appendAll (constWorld 0) []
      [⟨0, 2 ^ 63⟩, ⟨0, 2 ^ 63⟩]).1.GetFileSize = 0 ∧
    totalSize [⟨0, 2 ^ 63⟩, ⟨0, 2 ^ 63⟩] = 2 ^ 64 := by
  refine ⟨⟨by decide, by decide, trivial⟩, by decide, by decide⟩

/-! ## Writable handle: truncate and the frame of the tracked size -/

/-- C7. `Truncate(S)` returns `OK` and makes `GetFileSize()` return exactly `S`
when the blob-filesystem truncate succeeds (`rc = 0`), whatever the size was
before; when it fails, `Truncate(S)` returns `IOError` and the tracked size is
unchanged. An operation that changes the tracked size is a successful
`Append` or a successful `Truncate`; in particular `Allocate`, `Sync`,
`Fsync`, `RangeSync` and `Flush` leave it unchanged. -/
theorem truncate_and_size_frame (x : External) (log : Log) (h : SpdkWritableFile) (S : Nat) :
    ((x.reply log (Call.spdk_file_truncate h.mFile S)).rc = 0 →
      (h.Truncate x log S).status = Status.OK ∧
      (h.Truncate x log S).self.GetFileSize = S) ∧
    ((x.reply log (Call.spdk_file_truncate h.mFile S)).rc ≠ 0 →
      (∃ name msg, (h.Truncate x log S).status = Status.IOError name msg) ∧
      (h.Truncate x log S).self.GetFileSize = h.GetFileSize) ∧
    (∀ op : WritableOp, (h.after x log op).1.GetFileSize ≠ h.GetFileSize →
      (∃ d, op = WritableOp.Append d ∧ (h.Append x log d).status = Status.OK) ∨
      (∃ S2, op = WritableOp.Truncate S2 ∧ (h.Truncate x log S2).status = Status.OK)) ∧
    (∀ offset len : Nat,
      (h.Allocate x log offset len).self.GetFileSize = h.GetFileSize ∧
      (h.Sync x log).self.GetFileSize = h.GetFileSize ∧
      (h.Fsync x log).self.GetFileSize = h.GetFileSize ∧
      (h.RangeSync x log offset len).self.GetFileSize = h.GetFileSize ∧
      (h.Flush log).self.GetFileSize = h.GetFileSize) := by
  have hfin : ∀ c : Call, (SpdkWritableFile.finish x log h h c).self = h := by
    intro c
    by_cases hrc : (x.reply log c).rc = 0
    · rw [finish_ok x log h h c hrc]
    · rw [finish_err x log h h c hrc]
  refine ⟨?_, ?_, ?_, ?_⟩
  · intro hrc
    unfold SpdkWritableFile.Truncate
    rw [finish_ok x log h _ _ hrc]
    exact ⟨rfl, rfl⟩
  · intro hrc
    unfold SpdkWritableFile.Truncate
    rw [finish_err x log h _ _ hrc]
    exact ⟨⟨_, _, rfl⟩, rfl⟩
  · intro op hch
    cases op with
    | SetIOPriority pri =>
      exfalso
      apply hch
      simp only [SpdkWritableFile.after, SpdkWritableFile.SetIOPriority]
      split <;> rfl
    | Truncate S2 =>
      right
      refine ⟨S2, rfl, ?_⟩
      by_cases hrc : (x.reply log (Call.spdk_file_truncate h.mFile S2)).rc = 0
      · unfold SpdkWritableFile.Truncate
        rw [finish_ok x log h _ _ hrc]
      · exfalso
        apply hch
        simp only [SpdkWritableFile.after, SpdkWritableFile.Truncate]
        rw [finish_err x log h _ _ hrc]
    | Close => exact absurd rfl hch
    | Append d =>
      left
      refine ⟨d, rfl, ?_⟩
      by_cases hrc : 0 ≤ (x.reply log (Call.spdk_file_write h.mFile d.data h.mSize d.size)).rc
      · rw [append_ok x log h d hrc]
      · exfalso
        apply hch
        simp only [SpdkWritableFile.after]
        rw [append_err x log h d hrc]
    | Flush => exact absurd rfl hch
    | Sync =>
      exfalso
      apply hch
      simp only [SpdkWritableFile.after, SpdkWritableFile.Sync, hfin]
    | Fsync =>
      exfalso
      apply hch
      simp only [SpdkWritableFile.after, SpdkWritableFile.Fsync, hfin]
    | IsSyncThreadSafe => exact absurd rfl hch
    | GetFileSize => exact absurd rfl hch
    | InvalidateCache o l => exact absurd rfl hch
    | Allocate o l =>
      exfalso
      apply hch
      simp only [SpdkWritableFile.after, SpdkWritableFile.Allocate, hfin]
    | RangeSync o n =>
      exfalso
      apply hch
      simp only [SpdkWritableFile.after, SpdkWritableFile.RangeSync, hfin]
    | GetUniqueId id m => exact absurd rfl hch
  · intro offset len
    simp only [SpdkWritableFile.Allocate, SpdkWritableFile.Sync, SpdkWritableFile.Fsync,
      SpdkWritableFile.RangeSync, SpdkWritableFile.Flush, hfin, and_self]

/-- Witness for C7: a handle of tracked size 10 truncated to 4 and to 100 with
a succeeding blob-filesystem truncate, and to 4 with a failing one. -/
theorem truncate_and_size_frame_witness :
    ((⟨1, 10⟩ : SpdkWritableFile).Truncate (constWorld 0) [] 4).self.GetFileSize = 4 ∧
    ((⟨1, 10⟩ : SpdkWritableFile).Truncate (constWorld 0) [] 100).self.GetFileSize = 100 ∧
    ((⟨1, 10⟩ : SpdkWritableFile).Truncate (constWorld (-5)) [] 4).self.GetFileSize = 10 :=
  ⟨((truncate_and_size_frame (constWorld 0) [] ⟨1, 10⟩ 4).1 (by decide)).2,
    ((truncate_and_size_frame (constWorld 0) [] ⟨1, 10⟩ 100).1 (by decide)).2,
    ((truncate_and_size_frame (constWorld (-5)) [] ⟨1, 10⟩ 4).2.1 (by decide)).2⟩

/-! ## Sequential handle: the cursor -/

theorem step_cursor (x : External) (log : Log) (h : SpdkSequentialFile) (op : SeqOp)
    (hlt : h.mOffset < U64) :
    (h.step x log op).self.mOffset =
      (h.mOffset + op.advance (h.step x log op)) % U64 := by
  cases op with
  | Skip n => rfl
  | Read n scratch =>
    simp only [SpdkSequentialFile.step]
    by_cases hrc : 0 ≤ (x.reply log (Call.spdk_file_read h.mFile scratch h.mOffset n)).rc
    · rw [seq_read_ok x log h n scratch hrc]
      rfl
    · rw [seq_read_err x log h n scratch hrc]
      simp [SeqOp.advance, Nat.mod_eq_of_lt hlt]

theorem run_general (x : External) (ops : List SeqOp) :
    ∀ (log : Log) (h : SpdkSequentialFile), h.mOffset < U64 →
      h.cursorAfter x log ops = (h.mOffset + h.total x log ops) % U64 ∧
      (h.cursors x log ops).head? = some h.mOffset ∧
      (h.mOffset + h.total x log ops < U64 →
        List.Chain' (fun a b => a ≤ b) (h.cursors x log ops)) := by
  induction ops with
  | nil =>
    intro log h hlt
    simp [SpdkSequentialFile.cursorAfter, SpdkSequentialFile.total,
      SpdkSequentialFile.cursors, Nat.mod_eq_of_lt hlt]
  | cons op ops ih =>
    intro log h hlt
    have hstep := step_cursor x log h op hlt
    have hlt2 : (h.step x log op).self.mOffset < U64 := by
      rw [hstep]
      exact Nat.mod_lt _ (by decide)
    obtain ⟨ih1, ih2, ih3⟩ := ih (h.step x log op).log (h.step x log op).self hlt2
    refine ⟨?_, ?_, ?_⟩
    · simp only [SpdkSequentialFile.cursorAfter, SpdkSequentialFile.total]
      rw [ih1, hstep, Nat.mod_add_mod, Nat.add_assoc]
    · simp [SpdkSequentialFile.cursors]
    · intro hb
      simp only [SpdkSequentialFile.total] at hb
      have hadv : h.mOffset + op.advance (h.step x log op) < U64 := by omega
      rw [Nat.mod_eq_of_lt hadv] at hstep
      simp only [SpdkSequentialFile.cursors]
      rw [List.chain'_cons']
      refine ⟨?_, ih3 (by omega)⟩
      intro y hy
      rw [ih2] at hy
      cases hy
      omega

/-- C8 (amended). The cursor of a sequential handle starts at `0`; after any
sequence of `Read` and `Skip` calls it equals (bytes returned by the
successful reads + skipped amounts) mod `2^64`; as long as that sum is below
`2^64` the cursor is the sum itself and never decreases along the sequence. A
`Read` whose call returns `ret ≥ 0` is issued at the current cursor, advances
it by `ret` (mod `2^64`) and yields a slice over the scratch buffer of length
`ret`; a `Read` whose call returns a negative code returns `IOError` and leaves
the handle unchanged; `Skip(n)` adds `n` (mod `2^64`), issues no call and
returns `OK`. -/
theorem cursor_is_sum (x : External) (log : Log) (file : Nat) (ops : List SeqOp) :
    (SpdkSequentialFile.new file).mOffset = 0 ∧
    (SpdkSequentialFile.new file).cursorAfter x log ops =
      (SpdkSequentialFile.new file).total x log ops % U64 ∧
    ((SpdkSequentialFile.new file).total x log ops < U64 →
      (SpdkSequentialFile.new file).cursorAfter x log ops =
        (SpdkSequentialFile.new file).total x log ops ∧
      List.Chain' (fun a b => a ≤ b) ((SpdkSequentialFile.new file).cursors x log ops)) ∧
    (∀ (h : SpdkSequentialFile) (l : Log) (n scratch : Nat),
      0 ≤ (x.reply l (Call.spdk_file_read h.mFile scratch h.mOffset n)).rc →
      h.Read x l n scratch =
        { status := Status.OK
          result := some ⟨scratch,
            (x.reply l (Call.spdk_file_read h.mFile scratch h.mOffset n)).rc.toNat⟩
          self := { h with mOffset := (h.mOffset +
            (x.reply l (Call.spdk_file_read h.mFile scratch h.mOffset n)).rc.toNat) % U64 }
          log := l ++ [Call.spdk_file_read h.mFile scratch h.mOffset n] }) ∧
    (∀ (h : SpdkSequentialFile) (l : Log) (n scratch : Nat),
      (x.reply l (Call.spdk_file_read h.mFile scratch h.mOffset n)).rc < 0 →
      (∃ name msg, (h.Read x l n scratch).status = Status.IOError name msg) ∧
      (h.Read x l n scratch).self = h) ∧
    (∀ (h : SpdkSequentialFile) (l : Log) (n : Nat),
      h.Skip l n =
        { status := Status.OK, result := none,
          self := { h with mOffset := (h.mOffset + n) % U64 }, log := l }) := by
  obtain ⟨h1, _, h3⟩ := run_general x ops log (SpdkSequentialFile.new file)
    (by simp [SpdkSequentialFile.new, U64])
  simp only [SpdkSequentialFile.new, Nat.zero_add] at h1 h3
  refine ⟨rfl, h1, ?_, ?_, ?_, ?_⟩
  · intro hlt
    refine ⟨?_, h3 hlt⟩
    simp only [SpdkSequentialFile.new]
    rw [h1]
    exact Nat.mod_eq_of_lt hlt
  · intro h l n scratch hrc
    exact seq_read_ok x l h n scratch hrc
  · intro h l n scratch hrc
    rw [seq_read_err x l h n scratch (by omega)]
    exact ⟨⟨_, _, rfl⟩, rfl⟩
  · intro h l n
    rfl

/-- Witness for C8 (amended): skip 4, then a read that returns 7 bytes. -/
theorem cursor_is_sum_witness :
    (SpdkSequentialFile.new 1).total (constWorld 7) [] [SeqOp.Skip 4, SeqOp.Read 16 0] = 11 ∧
    (SpdkSequentialFile.new 1).cursorAfter (constWorld 7) [] [SeqOp.Skip 4, SeqOp.Read 16 0] =
      (SpdkSequentialFile.new 1).total (constWorld 7) [] [SeqOp.Skip 4, SeqOp.Read 16 0] ∧
    List.Chain' (fun a b => a ≤ b)
      ((SpdkSequentialFile.new 1).cursors (constWorld 7) [] [SeqOp.Skip 4, SeqOp.Read 16 0]) :=
  ⟨by decide,
    (cursor_is_sum (constWorld 7) [] 1 [SeqOp.Skip 4, SeqOp.Read 16 0]).2.2.1 (by decide)⟩

/-- C8 fails for skips that add up to `2^64`: after `Skip(1)` the cursor is
`1`, after a further `Skip(2^64 - 1)` it is `0`, so the cursor decreased and is
not the sum `2^64` of the skipped amounts. -/
theorem skip_wraps_cursor :
    (SpdkSequentialFile.new 1).cursors (constWorld 0) []
      [SeqOp.Skip 1, SeqOp.Skip (2 ^ 64 - 1)] = [0, 1, 0] ∧
    (SpdkSequentialFile.new 1).cursorAfter (constWorld 0) []
      [SeqOp.Skip 1, SeqOp.Skip (2 ^ 64 - 1)] = 0 ∧
    (SpdkSequentialFile.new 1).total (constWorld 0) []
      [SeqOp.Skip 1, SeqOp.Skip (2 ^ 64 - 1)] = 2 ^ 64 := by
  refine ⟨by decide, by decide, by decide⟩

/-! ## Random-access handle -/

/-- C9. When the positioned read returns a non-negative code `rc`, the
random-access `Read(offset, n)` makes exactly one call, the read at the given
offset for `n` bytes, and returns `OK` with a slice over the scratch buffer of
length exactly `n`, whatever `rc` is (also when `rc < n`). The handle holds no
position: every `Read` leaves it unchanged, so a `Read` performed after another
one is the same as that `Read` performed first. -/
theorem random_read_exact (x : External) (log : Log) (h : SpdkRandomAccessFile)
    (offset n scratch : Nat)
    (hrc : 0 ≤ (x.reply log (Call.spdk_file_read h.mFile scratch offset n)).rc) :
    h.Read x log offset n scratch =
      { status := Status.OK, result := some ⟨scratch, n⟩, self := h,
        log := log ++ [Call.spdk_file_read h.mFile scratch offset n] } ∧
    (∀ (x2 : External) (l2 : Log) (o2 n2 s2 : Nat),
      (h.Read x2 l2 o2 n2 s2).self = h ∧
      ∀ l3 : Log, (h.Read x2 l2 o2 n2 s2).self.Read x l3 offset n scratch =
        h.Read x l3 offset n scratch) := by
  have hself : ∀ (x2 : External) (l2 : Log) (o2 n2 s2 : Nat),
      (h.Read x2 l2 o2 n2 s2).self = h := by
    intro x2 l2 o2 n2 s2
    by_cases h2 : 0 ≤ (x2.reply l2 (Call.spdk_file_read h.mFile s2 o2 n2)).rc
    · rw [random_read_ok x2 l2 h o2 n2 s2 h2]
    · rw [random_read_err x2 l2 h o2 n2 s2 h2]
  refine ⟨random_read_ok x log h offset n scratch hrc, ?_⟩
  intro x2 l2 o2 n2 s2
  refine ⟨hself x2 l2 o2 n2 s2, ?_⟩
  intro l3
  rw [hself x2 l2 o2 n2 s2]

/-- Witness for C9: a read of 16 bytes at offset 32 whose call returns 3. -/
theorem random_read_exact_witness :
    0 ≤ ((constWorld 3).reply [] (Call.spdk_file_read 1 0 32 16)).rc ∧
    (SpdkRandomAccessFile.mk 1).Read (constWorld 3) [] 32 16 0 =
      { status := Status.OK, result := some ⟨0, 16⟩, self := SpdkRandomAccessFile.mk 1,
        log := [Call.spdk_file_read 1 0 32 16] } :=
  ⟨by decide, (random_read_exact (constWorld 3) [] (SpdkRandomAccessFile.mk 1) 32 16 0
    (by decide)).1⟩

/-! ## Facade: the not-found fallback -/

/-- C10. For a path (or pair of paths) the normaliser returns a name for,
`DeleteFile`, `RenameFile` and `GetFileSize` call the blob filesystem with the
normalised name(s). If the call returns `-ENOENT`, the operation makes one more
call, to the fallback filesystem with the original path(s), and returns exactly
its result; for every other result code `DeleteFile` and `RenameFile` return
`OK`, and `GetFileSize` returns `OK` with the size of the stat record, without
calling the fallback. -/
theorem not_found_falls_back (env : SpdkEnv) (x : External) (log : Log) (fname name : Str)
    (hname : sanitize_path fname env.mDirectory = .ok name) :
    ((x.reply log (Call.spdk_fs_delete_file name)).rc = -ENOENT →
      env.DeleteFile x log fname = .ok
        { status := (x.reply (log ++ [Call.spdk_fs_delete_file name])
            (Call.base_DeleteFile fname)).status
          log := log ++ [Call.spdk_fs_delete_file name, Call.base_DeleteFile fname] }) ∧
    ((x.reply log (Call.spdk_fs_delete_file name)).rc ≠ -ENOENT →
      env.DeleteFile x log fname = .ok
        { status := Status.OK, log := log ++ [Call.spdk_fs_delete_file name] }) ∧
    ((x.reply log (Call.spdk_fs_file_stat name)).rc = -ENOENT →
      env.GetFileSize x log fname = .ok
        { status := (x.reply (log ++ [Call.spdk_fs_file_stat name])
            (Call.base_GetFileSize fname)).status
          size := (x.reply (log ++ [Call.spdk_fs_file_stat name])
            (Call.base_GetFileSize fname)).size
          log := log ++ [Call.spdk_fs_file_stat name, Call.base_GetFileSize fname] }) ∧
    ((x.reply log (Call.spdk_fs_file_stat name)).rc ≠ -ENOENT →
      env.GetFileSize x log fname = .ok
        { status := Status.OK, size := (x.reply log (Call.spdk_fs_file_stat name)).size,
          log := log ++ [Call.spdk_fs_file_stat name] }) ∧
    (∀ t target_name : Str, sanitize_path t env.mDirectory = .ok target_name →
      ((x.reply log (Call.spdk_fs_rename_file name target_name)).rc = -ENOENT →
        env.RenameFile x log fname t = .ok
          { status := (x.reply (log ++ [Call.spdk_fs_rename_file name target_name])
              (Call.base_RenameFile fname t)).status
            log := log ++ [Call.spdk_fs_rename_file name target_name,
              Call.base_RenameFile fname t] }) ∧
      ((x.reply log (Call.spdk_fs_rename_file name target_name)).rc ≠ -ENOENT →
        env.RenameFile x log fname t = .ok
          { status := Status.OK,
            log := log ++ [Call.spdk_fs_rename_file name target_name] })) := by
  refine ⟨?_, ?_, ?_, ?_, ?_⟩
  · intro hrc
    simp only [SpdkEnv.DeleteFile, hname, Except.bind]
    rw [if_pos hrc]
  · intro hrc
    simp only [SpdkEnv.DeleteFile, hname, Except.bind]
    rw [if_neg hrc]
  · intro hrc
    simp only [SpdkEnv.GetFileSize, hname, Except.bind]
    rw [if_pos hrc]
  · intro hrc
    simp only [SpdkEnv.GetFileSize, hname, Except.bind]
    rw [if_neg hrc]
  · intro t target_name ht
    constructor
    · intro hrc
      simp only [SpdkEnv.RenameFile, hname, ht, Except.bind]
      rw [if_pos hrc]
    · intro hrc
      simp only [SpdkEnv.RenameFile, hname, ht, Except.bind]
      rw [if_neg hrc]

/-- Witness for C10: deleting `/mnt/a` when the blob filesystem reports
`-ENOENT` returns the fallback's answer for `/mnt/a`; when it reports `-5` the
result is `OK`. -/
theorem not_found_falls_back_witness :
    mntEnv.DeleteFile (constWorld (-ENOENT)) [] "/mnt/a".toList = .ok
      { status := Status.NotFound [] []
        log := [Call.spdk_fs_delete_file "/a".toList, Call.base_DeleteFile "/mnt/a".toList] } ∧
    mntEnv.DeleteFile (constWorld (-5)) [] "/mnt/a".toList = .ok
      { status := Status.OK, log := [Call.spdk_fs_delete_file "/a".toList] } :=
  ⟨(not_found_falls_back mntEnv (constWorld (-ENOENT)) [] "/mnt/a".toList "/a".toList
      (by decide)).1 (by decide),
    (not_found_falls_back mntEnv (constWorld (-5)) [] "/mnt/a".toList "/a".toList
      (by decide)).2.1 (by decide)⟩

/-! ## Facade: the archive rule of `GetChildren` -/

/-- C12. For every directory path that contains `archive`, in scope or not,
and whatever the blob filesystem and the fallback filesystem hold,
`GetChildren` returns `OK`, makes no call to either filesystem, and produces no
entry (no file name, no `.`, no `..`): the vector is left as it was on entry,
so the list is empty for a caller that passes an empty vector. -/
theorem archive_lists_nothing (env : SpdkEnv) (x : External) (log : Log) (dir : Str)
    (result : List Str) (harch : "archive".toList <:+: dir) :
    env.GetChildren x log dir result = .ok { status := Status.OK, result := result, log := log } ∧
    env.GetChildren x log dir [] = .ok { status := Status.OK, result := [], log := log } := by
  have hf : (find dir "archive".toList 0).isSome = true := (find_isSome_iff _ _).mpr harch
  constructor
  · unfold SpdkEnv.GetChildren
    rw [if_pos hf]
  · unfold SpdkEnv.GetChildren
    rw [if_pos hf]

/-- Witness for C12: the in-scope `/mnt/db/archive` and the out-of-scope
`/tmp/archive/2`, with files in the blob filesystem. -/
theorem archive_lists_nothing_witness :
    mntEnv.GetChildren (listWorld ["/db/archive/1.log".toList]) [] "/mnt/db/archive".toList [] =
      .ok { status := Status.OK, result := [], log := [] } ∧
    mntEnv.GetChildren (listWorld ["/db/archive/1.log".toList]) [] "/tmp/archive/2".toList [] =
      .ok { status := Status.OK, result := [], log := [] } :=
  ⟨(archive_lists_nothing mntEnv (listWorld ["/db/archive/1.log".toList]) []
      "/mnt/db/archive".toList [] (by decide)).2,
    (archive_lists_nothing mntEnv (listWorld ["/db/archive/1.log".toList]) []
      "/tmp/archive/2".toList [] (by decide)).2⟩

/-! ## Subsystem start-up -/

theorem after_cons (g : Globals) (e : RuntimeEvent) (es : List RuntimeEvent) :
    g.after (e :: es) = (g.step e).after es := rfl

theorem after_g_fs (es : List RuntimeEvent) : ∀ g : Globals,
    (∀ fs, RuntimeEvent.load_done fs 0 ∈ es → fs ≠ 0) →
    ((g.after es).g_fs ≠ 0 ↔ g.g_fs ≠ 0 ∨ ∃ fs, RuntimeEvent.load_done fs 0 ∈ es) := by
  induction es with
  | nil => intro g _; simp [Globals.after]
  | cons e es ih =>
    intro g hfs
    rw [after_cons, ih (g.step e) (fun fs h => hfs fs (List.mem_cons_of_mem _ h))]
    cases e with
    | load_done fs fserrno =>
      by_cases h0 : fserrno = 0
      · subst h0
        have hne : fs ≠ 0 := hfs fs (List.mem_cons_self _ _)
        simp [Globals.step, fs_load_cb, hne]
      · simp only [Globals.step, fs_load_cb, if_neg h0, List.mem_cons, RuntimeEvent.load_done.injEq]
        constructor
        · rintro (h | ⟨fs2, h⟩)
          · exact Or.inl h
          · exact Or.inr ⟨fs2, Or.inr h⟩
        · rintro (h | ⟨fs2, h | h⟩)
          · exact Or.inl h
          · exact absurd h.2.symm h0
          · exact Or.inr ⟨fs2, h⟩
    | app_start_returned rc =>
      have hg : (g.step (RuntimeEvent.app_start_returned rc)).g_fs = g.g_fs := by
        simp only [Globals.step, initialize_spdk]
        split <;> rfl
      rw [hg]
      simp

theorem after_ready (es : List RuntimeEvent) : ∀ g : Globals,
    ((g.after es).g_spdk_ready = true ↔
      g.g_spdk_ready = true ∨ ∃ fs fserrno, RuntimeEvent.load_done fs fserrno ∈ es) := by
  induction es with
  | nil => intro g; simp [Globals.after]
  | cons e es ih =>
    intro g
    rw [after_cons, ih (g.step e)]
    cases e with
    | load_done fs fserrno =>
      simp only [Globals.step, fs_load_cb, true_or, true_iff]
      exact Or.inr ⟨fs, fserrno, List.mem_cons_self _ _⟩
    | app_start_returned rc =>
      have hg : (g.step (RuntimeEvent.app_start_returned rc)).g_spdk_ready = g.g_spdk_ready := by
        simp only [Globals.step, initialize_spdk]
        split <;> rfl
      rw [hg]
      simp

theorem after_failure (es : List RuntimeEvent) : ∀ g : Globals,
    ((g.after es).g_spdk_start_failure = true ↔
      g.g_spdk_start_failure = true ∨
        ∃ rc, rc ≠ 0 ∧ RuntimeEvent.app_start_returned rc ∈ es) := by
  induction es with
  | nil => intro g; simp [Globals.after]
  | cons e es ih =>
    intro g
    rw [after_cons, ih (g.step e)]
    cases e with
    | load_done fs fserrno =>
      simp [Globals.step, fs_load_cb]
    | app_start_returned rc =>
      by_cases h0 : rc = 0
      · subst h0
        simp only [Globals.step, initialize_spdk, ne_eq, not_true_eq_false, if_false,
          List.mem_cons, RuntimeEvent.app_start_returned.injEq]
        constructor
        · rintro (h | ⟨rc, h1, h2⟩)
          · exact Or.inl h
          · exact Or.inr ⟨rc, h1, Or.inr h2⟩
        · rintro (h | ⟨rc, h1, h2 | h2⟩)
          · exact Or.inl h
          · exact absurd h2 h1
          · exact Or.inr ⟨rc, h1, h2⟩
      · simp only [Globals.step, initialize_spdk, ne_eq, h0, not_false_eq_true, if_true,
          true_or, true_iff]
        exact Or.inr ⟨rc, h0, List.mem_cons_self _ _⟩

theorem mem_take_mono {α : Type} (l : List α) (a : α) (k1 k2 : Nat) (h : k1 ≤ k2)
    (ha : a ∈ l.take k1) : a ∈ l.take k2 := by
  have ht : l.take k1 = (l.take k2).take k1 := by
    rw [List.take_take, Nat.min_eq_left h]
  rw [ht] at ha
  exact List.mem_of_mem_take ha

theorem initial_g_fs (es : List RuntimeEvent) (k : Nat)
    (hfs : ∀ fs, RuntimeEvent.load_done fs 0 ∈ es → fs ≠ 0) :
    (Globals.initial.after (es.take k)).g_fs ≠ 0 ↔
      ∃ fs, RuntimeEvent.load_done fs 0 ∈ es.take k := by
  rw [after_g_fs (es.take k) Globals.initial
    (fun fs h => hfs fs (List.mem_of_mem_take h))]
  simp [Globals.initial]

theorem initial_ready (es : List RuntimeEvent) (k : Nat) :
    (Globals.initial.after (es.take k)).g_spdk_ready = true ↔
      ∃ fs fserrno, RuntimeEvent.load_done fs fserrno ∈ es.take k := by
  rw [after_ready (es.take k) Globals.initial]
  simp [Globals.initial]

theorem initial_failure (es : List RuntimeEvent) (k : Nat) :
    (Globals.initial.after (es.take k)).g_spdk_start_failure = true ↔
      ∃ rc, rc ≠ 0 ∧ RuntimeEvent.app_start_returned rc ∈ es.take k := by
  rw [after_failure (es.take k) Globals.initial]
  simp [Globals.initial]

theorem construct_spinning (a b : Globals) :
    SpdkEnv.construct a b = Constructed.spinning ↔
      a.g_spdk_ready = false ∧ a.g_spdk_start_failure = false := by
  unfold SpdkEnv.construct
  cases a.g_spdk_ready <;> cases a.g_spdk_start_failure <;>
    cases b.g_spdk_start_failure <;> simp

theorem construct_throws (a b : Globals) :
    SpdkEnv.construct a b = Constructed.SpdkAppStartException ↔
      (a.g_spdk_ready = true ∨ a.g_spdk_start_failure = true) ∧
        b.g_spdk_start_failure = true := by
  unfold SpdkEnv.construct
  cases a.g_spdk_ready <;> cases a.g_spdk_start_failure <;>
    cases b.g_spdk_start_failure <;> simp

theorem construct_done (a b : Globals) :
    SpdkEnv.construct a b = Constructed.done ↔
      (a.g_spdk_ready = true ∨ a.g_spdk_start_failure = true) ∧
        b.g_spdk_start_failure = false := by
  unfold SpdkEnv.construct
  cases a.g_spdk_ready <;> cases a.g_spdk_start_failure <;>
    cases b.g_spdk_start_failure <;> simp

theorem new_env_none (a b c : Globals) :
    NewSpdkEnv a b c = none ↔ SpdkEnv.construct a b = Constructed.spinning := by
  unfold NewSpdkEnv
  cases SpdkEnv.construct a b with
  | spinning => simp
  | SpdkAppStartException => simp
  | done =>
    simp only [reduceCtorEq, iff_false]
    split <;> simp

theorem new_env_usable (a b c : Globals) :
    NewSpdkEnv a b c = some EnvPtr.spdk_env ↔
      SpdkEnv.construct a b = Constructed.done ∧ c.g_fs ≠ 0 := by
  unfold NewSpdkEnv
  cases SpdkEnv.construct a b with
  | spinning => simp
  | SpdkAppStartException => simp
  | done =>
    by_cases h : c.g_fs ≠ 0
    · simp [h]
    · simp [h]

theorem new_env_null (a b c : Globals) :
    NewSpdkEnv a b c = some EnvPtr.NULL ↔
      SpdkEnv.construct a b = Constructed.SpdkAppStartException ∨
        (SpdkEnv.construct a b = Constructed.done ∧ c.g_fs = 0) := by
  unfold NewSpdkEnv
  cases SpdkEnv.construct a b with
  | spinning => simp
  | SpdkAppStartException => simp
  | done =>
    by_cases h : c.g_fs = 0
    · simp [h]
    · simp [h]

/-- C13. `NewSpdkEnv` is called in the initial process state while the runtime
thread produces the events `es`; the constructing thread reads the globals
after `k1`, `k2 ≥ k1` and `k3` of them (busy-wait, start-failure check, `g_fs`
test). The
runtime keeps its contract: a load callback with code `0` passes a non-null
filesystem, and `spdk_app_start` returns non-zero only when the start itself
failed, so not in a run in which the load callback fired with code `0` (lines
786-793). Then:
* `g_fs` is non-null exactly when a load callback with code `0` has fired;
* `NewSpdkEnv` returns exactly when a flag is set at the busy-wait, and the
  value it returns is a usable environment if and only if a load callback with
  code `0` has fired;
* if `spdk_app_start` returned non-zero, the start-failure flag is set, the
  constructor raises `SpdkAppStartException` and `NewSpdkEnv` returns `NULL`;
* if the load callback fired with a non-zero code (and none with code `0`), the
  ready flag is set, `g_fs` is left null and `NewSpdkEnv` returns `NULL`.
`NewSpdkEnv` has no exceptional result: the exception ends in `NULL`. -/
theorem new_spdk_env_usable_iff_loaded (es : List RuntimeEvent) (k1 k2 k3 : Nat)
    (h12 : k1 ≤ k2)
    (hfs : ∀ fs, RuntimeEvent.load_done fs 0 ∈ es → fs ≠ 0)
    (hexcl : (∃ fs, RuntimeEvent.load_done fs 0 ∈ es) →
      ∀ rc, RuntimeEvent.app_start_returned rc ∈ es → rc = 0) :
    (∀ k, (Globals.initial.after (es.take k)).g_fs ≠ 0 ↔
      ∃ fs, RuntimeEvent.load_done fs 0 ∈ es.take k) ∧
    ((NewSpdkEnv_observing es k1 k2 k3).isSome = true ↔
      (∃ fs fserrno, RuntimeEvent.load_done fs fserrno ∈ es.take k1) ∨
        ∃ rc, rc ≠ 0 ∧ RuntimeEvent.app_start_returned rc ∈ es.take k1) ∧
    (∀ r, NewSpdkEnv_observing es k1 k2 k3 = some r →
      (r = EnvPtr.spdk_env ↔ ∃ fs, RuntimeEvent.load_done fs 0 ∈ es.take k3)) ∧
    (∀ rc, rc ≠ 0 → RuntimeEvent.app_start_returned rc ∈ es.take k1 →
      (Globals.initial.after (es.take k2)).g_spdk_start_failure = true ∧
      SpdkEnv.construct (Globals.initial.after (es.take k1))
        (Globals.initial.after (es.take k2)) = Constructed.SpdkAppStartException ∧
      NewSpdkEnv_observing es k1 k2 k3 = some EnvPtr.NULL) ∧
    (∀ fs fserrno, fserrno ≠ 0 → RuntimeEvent.load_done fs fserrno ∈ es.take k1 →
      (¬ ∃ fs2, RuntimeEvent.load_done fs2 0 ∈ es.take k3) →
      (Globals.initial.after (es.take k1)).g_spdk_ready = true ∧
      (Globals.initial.after (es.take k3)).g_fs = 0 ∧
      NewSpdkEnv_observing es k1 k2 k3 = some EnvPtr.NULL) := by
  have hg := fun k => initial_g_fs es k hfs
  have hnofail : (∃ fs, RuntimeEvent.load_done fs 0 ∈ es.take k3) →
      (Globals.initial.after (es.take k2)).g_spdk_start_failure = false := by
    intro hl
    obtain ⟨fs, hfsm⟩ := hl
    cases hf : (Globals.initial.after (es.take k2)).g_spdk_start_failure with
    | false => rfl
    | true =>
      obtain ⟨rc, hrc, hmem⟩ := (initial_failure es k2).mp hf
      exact absurd (hexcl ⟨fs, List.mem_of_mem_take hfsm⟩ rc (List.mem_of_mem_take hmem)) hrc
  refine ⟨hg, ?_, ?_, ?_, ?_⟩
  · unfold NewSpdkEnv_observing
    rw [← initial_ready es k1, ← initial_failure es k1]
    cases hr : NewSpdkEnv (Globals.initial.after (es.take k1))
        (Globals.initial.after (es.take k2)) (Globals.initial.after (es.take k3)) with
    | none =>
      have hsp := (construct_spinning _ _).mp ((new_env_none _ _ _).mp hr)
      simp [hsp.1, hsp.2]
    | some r =>
      simp only [Option.isSome_some, true_iff]
      have hns : ¬ SpdkEnv.construct (Globals.initial.after (es.take k1))
          (Globals.initial.after (es.take k2)) = Constructed.spinning := by
        intro hc
        rw [(new_env_none _ _ _).mpr hc] at hr
        cases hr
      rw [construct_spinning] at hns
      cases h1 : (Globals.initial.after (es.take k1)).g_spdk_ready with
      | true => exact Or.inl rfl
      | false =>
        cases h2 : (Globals.initial.after (es.take k1)).g_spdk_start_failure with
        | true => exact Or.inr rfl
        | false => exact absurd ⟨h1, h2⟩ hns
  · intro r hr
    unfold NewSpdkEnv_observing at hr
    constructor
    · intro hre
      rw [hre] at hr
      exact (hg k3).mp ((new_env_usable _ _ _).mp hr).2
    · intro hl
      have hf2 := hnofail hl
      have hns : ¬ SpdkEnv.construct (Globals.initial.after (es.take k1))
          (Globals.initial.after (es.take k2)) = Constructed.spinning := by
        intro hc
        rw [(new_env_none _ _ _).mpr hc] at hr
        cases hr
      rw [construct_spinning] at hns
      have hflag : (Globals.initial.after (es.take k1)).g_spdk_ready = true ∨
          (Globals.initial.after (es.take k1)).g_spdk_start_failure = true := by
        cases h1 : (Globals.initial.after (es.take k1)).g_spdk_ready with
        | true => exact Or.inl rfl
        | false =>
          cases h2 : (Globals.initial.after (es.take k1)).g_spdk_start_failure with
          | true => exact Or.inr rfl
          | false => exact absurd ⟨h1, h2⟩ hns
      have hu := (new_env_usable (Globals.initial.after (es.take k1))
        (Globals.initial.after (es.take k2)) (Globals.initial.after (es.take k3))).mpr
        ⟨(construct_done _ _).mpr ⟨hflag, hf2⟩, (hg k3).mpr hl⟩
      rw [hu] at hr
      exact (Option.some.inj hr).symm
  · intro rc hrc hmem
    have hf1 := (initial_failure es k1).mpr ⟨rc, hrc, hmem⟩
    have hf2 := (initial_failure es k2).mpr ⟨rc, hrc, mem_take_mono es _ k1 k2 h12 hmem⟩
    have hthrow := (construct_throws (Globals.initial.after (es.take k1))
      (Globals.initial.after (es.take k2))).mpr ⟨Or.inr hf1, hf2⟩
    refine ⟨hf2, hthrow, ?_⟩
    unfold NewSpdkEnv_observing
    exact (new_env_null _ _ _).mpr (Or.inl hthrow)
  · intro fs fserrno _ hmem hnone
    have hr1 := (initial_ready es k1).mpr ⟨fs, fserrno, hmem⟩
    have hg3 : (Globals.initial.after (es.take k3)).g_fs = 0 := by
      by_contra hne
      exact hnone ((hg k3).mp hne)
    refine ⟨hr1, hg3, ?_⟩
    unfold NewSpdkEnv_observing
    rw [new_env_null]
    cases hf2 : (Globals.initial.after (es.take k2)).g_spdk_start_failure with
    | true => exact Or.inl ((construct_throws _ _).mpr ⟨Or.inl hr1, hf2⟩)
    | false => exact Or.inr ⟨(construct_done _ _).mpr ⟨Or.inl hr1, hf2⟩, hg3⟩

/-- Witness for C13: the three runs of the claim, each read after the runtime's
single event: a load callback with code `0` and filesystem `7` gives a usable
environment; a load callback with code `-5` gives `NULL`; `spdk_app_start`
returning `1` gives `NULL`; and with no event `NewSpdkEnv` has not returned. -/
theorem new_spdk_env_usable_iff_loaded_witness :
    NewSpdkEnv_observing [RuntimeEvent.load_done 7 0] 1 1 1 = some EnvPtr.spdk_env ∧
    NewSpdkEnv_observing [RuntimeEvent.load_done 7 (-5)] 1 1 1 = some EnvPtr.NULL ∧
    NewSpdkEnv_observing [RuntimeEvent.app_start_returned 1] 1 1 1 = some EnvPtr.NULL ∧
    NewSpdkEnv_observing [] 0 0 0 = none ∧
    ((Globals.initial.after ([RuntimeEvent.load_done 7 0].take 1)).g_fs ≠ 0 ↔
      ∃ fs, RuntimeEvent.load_done fs 0 ∈ [RuntimeEvent.load_done 7 0].take 1) :=
  ⟨by decide, by decide, by decide, by decide,
    (new_spdk_env_usable_iff_loaded [RuntimeEvent.load_done 7 0] 1 1 1 (by decide)
      (by intro fs h; simp at h; subst h; decide)
      (by intro _ rc h; simp at h)).1 1⟩

/-! ## Listing children: string helpers -/

theorem char_toNat_inj (a b : Char) (h : a.toNat = b.toNat) : a = b := by
  apply Char.ext
  apply UInt32.ext
  exact h

theorem strncmp_eq_zero_iff (d : Str) : ∀ f : Str, Char.ofNat 0 ∉ d →
    (strncmp d f d.length = 0 ↔ d <+: f) := by
  induction d with
  | nil => intro f _; simp [strncmp]
  | cons a d ih =>
    intro f hnul
    have ha : a ≠ Char.ofNat 0 := fun h => hnul (h ▸ List.mem_cons_self _ _)
    have hd : Char.ofNat 0 ∉ d := fun h => hnul (List.mem_cons_of_mem _ h)
    have ha0 : a.toNat ≠ 0 := fun h => ha (char_toNat_inj a (Char.ofNat 0) h)
    cases f with
    | nil =>
      have h1 : ¬ a.toNat < (Char.ofNat 0).toNat := by
        show ¬ a.toNat < 0
        omega
      have h2 : (Char.ofNat 0).toNat < a.toNat := by
        show 0 < a.toNat
        omega
      simp only [List.length_cons, strncmp, List.headD_nil, List.headD_cons]
      rw [if_neg h1, if_pos h2]
      simp
    | cons b f =>
      simp only [List.length_cons, strncmp, List.headD_cons, List.tail_cons,
        List.cons_prefix_cons]
      by_cases h1 : a.toNat < b.toNat
      · have hne : a ≠ b := fun h => by rw [h] at h1; omega
        simp [h1, hne]
      · by_cases h2 : b.toNat < a.toNat
        · have hne : a ≠ b := fun h => by rw [h] at h2; omega
          simp [h1, h2, hne]
        · have hab : a = b := char_toNat_inj a b (by omega)
          rw [if_neg h1, if_neg h2, if_neg ha, ih f hd]
          simp [hab]

theorem str_lt_irrefl (a : Str) : str_lt a a = false := by
  induction a with
  | nil => rfl
  | cons c a ih => simp [str_lt, ih]

theorem str_lt_trans : ∀ a b c : Str, str_lt a b = true → str_lt b c = true →
    str_lt a c = true
  | [], [], _, h, _ => by simp [str_lt] at h
  | [], _ :: _, [], _, h => by simp [str_lt] at h
  | [], _ :: _, _ :: _, _, _ => by simp [str_lt]
  | _ :: _, [], _, h, _ => by simp [str_lt] at h
  | _ :: _, _ :: _, [], _, h => by simp [str_lt] at h
  | x :: a, y :: b, z :: c, h1, h2 => by
    simp only [str_lt] at h1 h2 ⊢
    by_cases hxy : x.toNat < y.toNat
    · by_cases hyz : y.toNat < z.toNat
      · have : x.toNat < z.toNat := by omega
        simp [this]
      · rw [if_neg hyz] at h2
        by_cases hzy : z.toNat < y.toNat
        · simp [hzy] at h2
        · have : x.toNat < z.toNat := by omega
          simp [this]
    · rw [if_neg hxy] at h1
      by_cases hyx : y.toNat < x.toNat
      · simp [hyx] at h1
      · rw [if_neg hyx] at h1
        by_cases hyz : y.toNat < z.toNat
        · have : x.toNat < z.toNat := by omega
          simp [this]
        · rw [if_neg hyz] at h2
          by_cases hzy : z.toNat < y.toNat
          · simp [hzy] at h2
          · rw [if_neg hzy] at h2
            have h3 : ¬ x.toNat < z.toNat := by omega
            have h4 : ¬ z.toNat < x.toNat := by omega
            rw [if_neg h3, if_neg h4]
            exact str_lt_trans a b c h1 h2

theorem str_lt_total : ∀ a b : Str, str_lt a b = false → str_lt b a = false → a = b
  | [], [], _, _ => rfl
  | [], _ :: _, h, _ => by simp [str_lt] at h
  | _ :: _, [], _, h => by simp [str_lt] at h
  | x :: a, y :: b, h1, h2 => by
    simp only [str_lt] at h1 h2
    by_cases hxy : x.toNat < y.toNat
    · simp [hxy] at h1
    · by_cases hyx : y.toNat < x.toNat
      · simp [hyx] at h2
      · rw [if_neg hxy, if_neg hyx] at h1
        rw [if_neg hyx, if_neg hxy] at h2
        have hc : x = y := char_toNat_inj x y (by omega)
        rw [hc, str_lt_total a b h1 h2]

theorem mem_set_insert (v w : Str) (l : List Str) :
    w ∈ set_insert v l ↔ w = v ∨ w ∈ l := by
  induction l with
  | nil => simp [set_insert]
  | cons u l ih =>
    simp only [set_insert]
    by_cases h1 : str_lt v u = true
    · simp [h1]
    · have h1f : str_lt v u = false := by simpa using h1
      rw [if_neg h1]
      by_cases h2 : str_lt u v = true
      · rw [if_pos h2, List.mem_cons, ih, List.mem_cons]
        tauto
      · have h2f : str_lt u v = false := by simpa using h2
        rw [if_neg h2]
        have huv : v = u := str_lt_total v u h1f h2f
        rw [List.mem_cons, huv]
        tauto

theorem set_insert_sorted (v : Str) (l : List Str)
    (h : List.Pairwise (fun a b => str_lt a b = true) l) :
    List.Pairwise (fun a b => str_lt a b = true) (set_insert v l) := by
  induction l with
  | nil => simp [set_insert]
  | cons u l ih =>
    rw [List.pairwise_cons] at h
    simp only [set_insert]
    by_cases h1 : str_lt v u = true
    · rw [if_pos h1, List.pairwise_cons]
      refine ⟨?_, List.pairwise_cons.mpr h⟩
      intro a ha
      rcases List.mem_cons.mp ha with hau | hal
      · rw [hau]
        exact h1
      · exact str_lt_trans v u a h1 (h.1 a hal)
    · rw [if_neg h1]
      by_cases h2 : str_lt u v = true
      · rw [if_pos h2, List.pairwise_cons]
        refine ⟨?_, ih h.2⟩
        intro a ha
        rcases (mem_set_insert v a l).mp ha with hav | hal
        · rw [hav]
          exact h2
        · exact h.1 a hal
      · rw [if_neg h2]
        exact List.pairwise_cons.mpr h

theorem sorted_nodup (l : List Str)
    (h : List.Pairwise (fun a b => str_lt a b = true) l) : l.Nodup := by
  apply List.Pairwise.imp _ h
  intro a b hab heq
  rw [heq, str_lt_irrefl] at hab
  cases hab

theorem take_length_takeWhile (p : Char → Bool) (t : Str) :
    t.take (t.takeWhile p).length = t.takeWhile p := by
  induction t with
  | nil => rfl
  | cons c t ih =>
    by_cases hc : p c = true
    · simp [List.takeWhile_cons_of_pos hc, ih]
    · simp [List.takeWhile_cons_of_neg hc]

theorem find_slash_aux (t : Str) : ∀ pre : Str,
    (List.range' pre.length (t.length + 1)).find?
        (fun i => ['/'].isPrefixOf ((pre ++ t).drop i)) =
      if '/' ∈ t then some (pre.length + (t.takeWhile (fun c => c ≠ '/')).length)
      else none := by
  induction t with
  | nil =>
    intro pre
    simp [List.range']
  | cons c t ih =>
    intro pre
    have hdrop : (pre ++ c :: t).drop pre.length = c :: t := List.drop_left pre (c :: t)
    rw [List.length_cons, List.range'_succ, List.find?_cons, hdrop]
    by_cases hc : c = '/'
    · subst hc
      simp [List.isPrefixOf]
    · have hc2 : ¬ ('/' = c) := fun h => hc h.symm
      have hp : ['/'].isPrefixOf (c :: t) = false := by
        simp [List.isPrefixOf, hc2]
      have hih := ih (pre ++ [c])
      simp only [List.length_append, List.length_singleton, List.append_assoc,
        List.singleton_append] at hih
      rw [hp]
      simp only []
      rw [hih]
      have hmem : ('/' ∈ c :: t) ↔ ('/' ∈ t) := by
        simp [hc2]
      have htw : (c :: t).takeWhile (fun c => c ≠ '/') = c :: t.takeWhile (fun c => c ≠ '/') :=
        List.takeWhile_cons_of_pos (by simpa using hc)
      by_cases hm : '/' ∈ t
      · rw [if_pos hm, if_pos (hmem.mpr hm), htw]
        simp only [List.length_cons]
        congr 1
        omega
      · rw [if_neg hm, if_neg (fun h => hm (hmem.mp h))]

theorem find_slash (pre t : Str) :
    find (pre ++ t) ['/'] pre.length =
      if '/' ∈ t then some (pre.length + (t.takeWhile (fun c => c ≠ '/')).length)
      else none := by
  unfold find
  have hlen : (pre ++ t).length + 1 - pre.length = t.length + 1 := by
    rw [List.length_append]
    omega
  rw [hlen]
  exact find_slash_aux t pre

theorem children_step_under (d t : Str) (set : List Str) (hnul : Char.ofNat 0 ∉ d)
    (hlen : (d ++ '/' :: t).length < U64) :
    children_step d (d ++ '/' :: t) set =
      .ok (set_insert (t.takeWhile (fun c => c ≠ '/')) set) := by
  have hpre : d <+: d ++ '/' :: t := List.prefix_append d _
  have hcmp : strncmp d (d ++ '/' :: t) d.length = 0 :=
    (strncmp_eq_zero_iff d _ hnul).mpr hpre
  have hsplit : d ++ '/' :: t = (d ++ ['/']) ++ t := by simp
  have hk : (d ++ ['/']).length = d.length + 1 := by simp
  have hfind := find_slash (d ++ ['/']) t
  rw [hk, ← hsplit] at hfind
  have hsub : ∀ n, substr (d ++ '/' :: t) (d.length + 1) n = .ok (t.take n) := by
    intro n
    unfold substr
    rw [if_pos (by rw [List.length_append, List.length_cons]; omega)]
    have hdrop : (d ++ '/' :: t).drop (d.length + 1) = t := by
      rw [hsplit, ← hk]
      exact List.drop_left _ _
    rw [hdrop]
  unfold children_step
  rw [if_neg (by simp [hcmp]), hfind]
  by_cases hm : '/' ∈ t
  · rw [if_pos hm]
    simp only []
    rw [hsub]
    have harith : d.length + 1 + (t.takeWhile (fun c => c ≠ '/')).length - d.length - 1 =
        (t.takeWhile (fun c => c ≠ '/')).length := by omega
    rw [harith, take_length_takeWhile]
    rfl
  · rw [if_neg hm]
    simp only []
    rw [hsub]
    have htl : t.length ≤ U64 - 1 := by
      rw [List.length_append, List.length_cons] at hlen
      omega
    rw [List.take_of_length_le htl]
    have hall : t.takeWhile (fun c => c ≠ '/') = t := by
      rw [List.takeWhile_eq_self_iff]
      intro c hc
      have : c ≠ '/' := fun h => hm (h ▸ hc)
      simpa using this
    rw [hall]
    rfl

theorem children_step_outside (d f : Str) (set : List Str) (hnul : Char.ofNat 0 ∉ d)
    (hout : ¬ d <+: f) : children_step d f set = .ok set := by
  have hcmp : strncmp d f d.length ≠ 0 := fun h => hout ((strncmp_eq_zero_iff d f hnul).mp h)
  unfold children_step
  rw [if_pos hcmp]

/-! ## Listing children: the first segment below the directory -/

theorem takeWhile_no_slash (t : Str) : '/' ∉ t.takeWhile (fun c => c ≠ '/') := by
  induction t with
  | nil => simp
  | cons c t ih =>
    by_cases hc : c = '/'
    · subst hc
      simp
    · rw [List.takeWhile_cons_of_pos (by simpa using hc)]
      intro hm
      rcases List.mem_cons.mp hm with h | h
      · exact hc h.symm
      · exact ih h

theorem takeWhile_split (t : Str) :
    t = t.takeWhile (fun c => c ≠ '/') ∨
      ∃ r, t = t.takeWhile (fun c => c ≠ '/') ++ '/' :: r := by
  induction t with
  | nil => left; rfl
  | cons c t ih =>
    by_cases hc : c = '/'
    · subst hc
      right
      exact ⟨t, by simp⟩
    · rw [List.takeWhile_cons_of_pos (by simpa using hc)]
      rcases ih with h | ⟨r, h⟩
      · left
        rw [← h]
      · right
        refine ⟨r, ?_⟩
        rw [List.cons_append, ← h]

theorem takeWhile_of_no_slash (n r : Str) (hn : '/' ∉ n) :
    (n ++ r).takeWhile (fun c => c ≠ '/') = n ++ r.takeWhile (fun c => c ≠ '/') := by
  apply List.takeWhile_append_of_pos
  intro a ha
  have : a ≠ '/' := fun h => hn (h ▸ ha)
  simpa using this

theorem segment_after_under (d t : Str) :
    segment_after d (d ++ '/' :: t) = t.takeWhile (fun c => c ≠ '/') := by
  unfold segment_after
  have hsplit : d ++ '/' :: t = (d ++ ['/']) ++ t := by simp
  have hk : (d ++ ['/']).length = d.length + 1 := by simp
  have hdrop : (d ++ '/' :: t).drop (d.length + 1) = t := by
    rw [hsplit, ← hk]
    exact List.drop_left _ _
  rw [hdrop]

theorem canonical_tail (d t : Str) (hcan : Canonical (d ++ '/' :: t)) :
    ∃ c t2, t = c :: t2 ∧ c ≠ '/' := by
  obtain ⟨_, hno, hlast⟩ := hcan
  cases t with
  | nil =>
    exfalso
    apply hlast
    simp
  | cons c t2 =>
    refine ⟨c, t2, rfl, ?_⟩
    intro hc
    apply hno
    subst hc
    exact ⟨d, t2, by simp⟩

theorem segment_iff_child (d f n : Str) (hcan : Canonical f)
    (hunder : d <+: f → d ++ ['/'] <+: f) :
    (d <+: f ∧ n = segment_after d f) ↔ (n ≠ [] ∧ '/' ∉ n ∧ IsChildVia d n f) := by
  constructor
  · rintro ⟨hpre, hn⟩
    obtain ⟨t, ht⟩ := hunder hpre
    have hf : f = d ++ '/' :: t := by
      rw [← ht]
      simp
    subst hf
    rw [segment_after_under] at hn
    obtain ⟨c, t2, htc, hc⟩ := canonical_tail d t hcan
    refine ⟨?_, ?_, ?_⟩
    · rw [hn, htc, List.takeWhile_cons_of_pos (by simpa using hc)]
      simp
    · rw [hn]
      exact takeWhile_no_slash t
    · unfold IsChildVia
      rcases takeWhile_split t with h | ⟨r, h⟩
      · left
        rw [hn, ← h]
      · right
        refine ⟨r, ?_⟩
        rw [hn]
        conv_rhs => rw [h]
        simp
  · rintro ⟨_, hslash, hchild⟩
    rcases hchild with h | ⟨r, h⟩
    · subst h
      refine ⟨List.prefix_append d _, ?_⟩
      rw [segment_after_under]
      have := takeWhile_of_no_slash n [] hslash
      simpa using this.symm
    · have hf : f = d ++ '/' :: (n ++ '/' :: r) := by
        rw [← h]
        simp
      subst hf
      refine ⟨List.prefix_append d _, ?_⟩
      rw [segment_after_under, takeWhile_of_no_slash n _ hslash]
      simp

/-! ## Listing children: the loop -/

theorem children_step_good (d f : Str) (set : List Str) (hnul : Char.ofNat 0 ∉ d)
    (hlen : f.length < U64) (hunder : d <+: f → d ++ ['/'] <+: f) :
    (d <+: f ∧ children_step d f set = .ok (set_insert (segment_after d f) set)) ∨
    (¬ d <+: f ∧ children_step d f set = .ok set) := by
  by_cases hpre : d <+: f
  · left
    refine ⟨hpre, ?_⟩
    obtain ⟨t, ht⟩ := hunder hpre
    have hf : f = d ++ '/' :: t := by
      rw [← ht]
      simp
    subst hf
    rw [segment_after_under]
    exact children_step_under d t set hnul hlen
  · right
    exact ⟨hpre, children_step_outside d f set hnul hpre⟩

theorem children_fold_spec (d : Str) (hnul : Char.ofNat 0 ∉ d) (names : List Str) :
    ∀ set : List Str,
      (∀ f ∈ names, f.length < U64 ∧ (d <+: f → d ++ ['/'] <+: f)) →
      ∃ S, children_fold d set names = .ok S ∧
        (List.Pairwise (fun a b => str_lt a b = true) set →
          List.Pairwise (fun a b => str_lt a b = true) S) ∧
        ∀ n, n ∈ S ↔ n ∈ set ∨ ∃ f ∈ names, d <+: f ∧ n = segment_after d f := by
  induction names with
  | nil =>
    intro set _
    exact ⟨set, rfl, fun h => h, by simp⟩
  | cons f names ih =>
    intro set hgood
    have hf := hgood f (List.mem_cons_self _ _)
    have hrest : ∀ g ∈ names, g.length < U64 ∧ (d <+: g → d ++ ['/'] <+: g) :=
      fun g hg => hgood g (List.mem_cons_of_mem _ hg)
    rcases children_step_good d f set hnul hf.1 hf.2 with ⟨hpre, hstep⟩ | ⟨hpre, hstep⟩
    · obtain ⟨S, hS, hsorted, hmem⟩ := ih (set_insert (segment_after d f) set) hrest
      refine ⟨S, ?_, ?_, ?_⟩
      · simp only [children_fold, hstep, Except.bind]
        exact hS
      · intro hset
        exact hsorted (set_insert_sorted _ _ hset)
      · intro n
        rw [hmem n, mem_set_insert]
        constructor
        · rintro ((h | h) | ⟨g, hg, hgp, hgn⟩)
          · exact Or.inr ⟨f, List.mem_cons_self _ _, hpre, h⟩
          · exact Or.inl h
          · exact Or.inr ⟨g, List.mem_cons_of_mem _ hg, hgp, hgn⟩
        · rintro (h | ⟨g, hg, hgp, hgn⟩)
          · exact Or.inl (Or.inr h)
          · rcases List.mem_cons.mp hg with hgf | hgl
            · subst hgf
              exact Or.inl (Or.inl hgn)
            · exact Or.inr ⟨g, hgl, hgp, hgn⟩
    · obtain ⟨S, hS, hsorted, hmem⟩ := ih set hrest
      refine ⟨S, ?_, hsorted, ?_⟩
      · simp only [children_fold, hstep, Except.bind]
        exact hS
      · intro n
        rw [hmem n]
        constructor
        · rintro (h | ⟨g, hg, hgp, hgn⟩)
          · exact Or.inl h
          · exact Or.inr ⟨g, List.mem_cons_of_mem _ hg, hgp, hgn⟩
        · rintro (h | ⟨g, hg, hgp, hgn⟩)
          · exact Or.inl h
          · rcases List.mem_cons.mp hg with hgf | hgl
            · subst hgf
              exact absurd hgp hpre
            · exact Or.inr ⟨g, hgl, hgp, hgn⟩

theorem children_loop_eq_fold (x : External) (d : Str) (files : List Nat) :
    ∀ (log : Log) (set : List Str),
      children_loop x d log set files =
        (children_fold d set (file_names x log files)).map fun S =>
          (S, log ++ files.map Call.spdk_file_get_name) := by
  induction files with
  | nil =>
    intro log set
    simp [children_loop, children_fold, file_names, Except.map]
  | cons file files ih =>
    intro log set
    simp only [children_loop, children_fold, file_names]
    cases hstep : children_step d (x.reply log (Call.spdk_file_get_name file)).name set with
    | error e => rfl
    | ok set2 =>
      simp only [Except.bind]
      rw [ih]
      simp

/-- C11, on the code. Let `dir` be in scope and free of `archive`, let
`d = sanitize_path(dir)` exist and contain no NUL, and let every file name the
blob filesystem reports be a canonical path shorter than `2^64` that, if it
starts with the characters of `d`, continues with `/` (so no file is named `d`
itself or `d` followed by other characters, such as `/a2/y` for `d = /a`). Then
`GetChildren(dir)` asks the blob filesystem for its files and each file's name,
returns `OK`, and appends to the vector a duplicate-free list `S` followed by
`.` and `..`, where a name `n` is in `S` if and only if `n` is non-empty,
contains no `/`, and some file's path is `d/n` or begins with `d/n/`. Without
the condition on the file names the code lists other names or throws (see the
witness). -/
theorem get_children_lists (env : SpdkEnv) (x : External) (log : Log) (dir d : Str)
    (result : List Str)
    (hscope : env.mDirectory <+: dir)
    (harch : ¬ ("archive".toList <:+: dir))
    (hd : sanitize_path dir env.mDirectory = .ok d)
    (hnul : Char.ofNat 0 ∉ d)
    (hfiles : ∀ f ∈ file_names x (log ++ [Call.spdk_fs_iter])
        (x.reply log Call.spdk_fs_iter).files,
      Canonical f ∧ f.length < U64 ∧ (d <+: f → d ++ ['/'] <+: f)) :
    ∃ S, env.GetChildren x log dir result = .ok
        { status := Status.OK
          result := result ++ S ++ [".".toList, "..".toList]
          log := log ++ Call.spdk_fs_iter ::
            (x.reply log Call.spdk_fs_iter).files.map Call.spdk_file_get_name } ∧
      S.Nodup ∧
      ∀ n, n ∈ S ↔
        n ≠ [] ∧ '/' ∉ n ∧
          ∃ f ∈ file_names x (log ++ [Call.spdk_fs_iter])
            (x.reply log Call.spdk_fs_iter).files, IsChildVia d n f := by
  have hf : (find dir "archive".toList 0).isSome = false := by
    cases hfs : (find dir "archive".toList 0).isSome with
    | false => rfl
    | true => exact absurd ((find_isSome_iff _ _).mp hfs) harch
  have hs : env.in_scope dir = true := (in_scope_iff env dir).mpr hscope
  obtain ⟨S, hS, hsorted, hmem⟩ := children_fold_spec d hnul
    (file_names x (log ++ [Call.spdk_fs_iter]) (x.reply log Call.spdk_fs_iter).files) []
    (fun f hfm => (hfiles f hfm).2)
  refine ⟨S, ?_, sorted_nodup S (hsorted List.Pairwise.nil), ?_⟩
  · unfold SpdkEnv.GetChildren
    rw [hf, hs]
    simp only [Bool.false_eq_true, if_false, if_true, hd, Except.bind]
    rw [children_loop_eq_fold, hS]
    simp [Except.map]
  · intro n
    rw [hmem n]
    simp only [List.not_mem_nil, false_or]
    constructor
    · rintro ⟨f, hfm, hpre, hn⟩
      have h := (segment_iff_child d f n (hfiles f hfm).1 (hfiles f hfm).2.2).mp ⟨hpre, hn⟩
      exact ⟨h.1, h.2.1, f, hfm, h.2.2⟩
    · rintro ⟨hne, hslash, f, hfm, hchild⟩
      have h := (segment_iff_child d f n (hfiles f hfm).1 (hfiles f hfm).2.2).mpr
        ⟨hne, hslash, hchild⟩
      exact ⟨f, hfm, h.1, h.2⟩

/-- Witness for C11. With the files `/a/x`, `/a/y`, `/a/b/z` the directory
`/mnt/a` (mounted at `/mnt`) lists exactly `b`, `x`, `y`, `.`, `..`. The failing
inputs: with the files `/a/x` and `/a2/y` the same directory also lists the
empty name, and with the files `/a/x` and `/a` the call throws
`std::out_of_range`. -/
theorem get_children_lists_witness :
    (∃ S, mntEnv.GetChildren
        (listWorld ["/a/x".toList, "/a/y".toList, "/a/b/z".toList]) [] "/mnt/a".toList [] = .ok
        { status := Status.OK
          result := [] ++ S ++ [".".toList, "..".toList]
          log := [] ++ Call.spdk_fs_iter ::
            ((listWorld ["/a/x".toList, "/a/y".toList, "/a/b/z".toList]).reply []
              Call.spdk_fs_iter).files.map Call.spdk_file_get_name } ∧
      S.Nodup ∧
      ∀ n, n ∈ S ↔
        n ≠ [] ∧ '/' ∉ n ∧
          ∃ f ∈ file_names (listWorld ["/a/x".toList, "/a/y".toList, "/a/b/z".toList])
            ([] ++ [Call.spdk_fs_iter])
            ((listWorld ["/a/x".toList, "/a/y".toList, "/a/b/z".toList]).reply []
              Call.spdk_fs_iter).files, IsChildVia "/a".toList n f) ∧
    ((mntEnv.GetChildren (listWorld ["/a/x".toList, "/a/y".toList, "/a/b/z".toList]) []
        "/mnt/a".toList []).map fun o => o.result) =
      .ok ["b".toList, "x".toList, "y".toList, ".".toList, "..".toList] ∧
    ((mntEnv.GetChildren (listWorld ["/a/x".toList, "/a2/y".toList]) []
        "/mnt/a".toList []).map fun o => o.result) =
      .ok [[], "x".toList, ".".toList, "..".toList] ∧
    ((mntEnv.GetChildren (listWorld ["/a/x".toList, "/a".toList]) []
        "/mnt/a".toList []).map fun o => o.result) = .error Fault.out_of_range :=
  ⟨get_children_lists mntEnv (listWorld ["/a/x".toList, "/a/y".toList, "/a/b/z".toList]) []
      "/mnt/a".toList "/a".toList [] (by decide) (by decide) (by decide) (by decide)
      (by
        have hn : file_names (listWorld ["/a/x".toList, "/a/y".toList, "/a/b/z".toList])
            ([] ++ [Call.spdk_fs_iter])
            ((listWorld ["/a/x".toList, "/a/y".toList, "/a/b/z".toList]).reply []
              Call.spdk_fs_iter).files =
            ["/a/x".toList, "/a/y".toList, "/a/b/z".toList] := by decide
        rw [hn]
        intro f hf
        rcases List.mem_cons.mp hf with h | hf
        · subst h
          exact ⟨⟨by decide, by decide, by decide⟩, by decide, by decide⟩
        rcases List.mem_cons.mp hf with h | hf
        · subst h
          exact ⟨⟨by decide, by decide, by decide⟩, by decide, by decide⟩
        rcases List.mem_cons.mp hf with h | hf
        · subst h
          exact ⟨⟨by decide, by decide, by decide⟩, by decide, by decide⟩
        · cases hf),
    by decide, by decide, by decide⟩

end SpdkEnvModel
